import Mathlib

/-
Verification development for the query-normalization and CSV framing
pipeline of the ptr-cloud-datasource repository
(pkg/cloudwatch/models/cloudwatch_query.go and pkg/infinity/csvBackend.go).

Modelling conventions:
* Go strings are modelled as `List Char` (ASCII-faithful; the inputs the
  claims quantify over are ASCII).
* Go `time.Time` values are modelled as integer seconds; `time.Duration`
  differences as integer seconds.  `time.Now()` is passed explicitly as
  `nowSec`.
* Fallible Go code returns an explicit outcome type; Go runtime panics
  (failed type assertions, out-of-range slice indexing, nil dereference)
  are modelled as a distinct `panicked` outcome.
* Go standard-library collaborators that the source merely calls
  (`time.ParseDuration`, `uuid.NewString`) are passed in as function or
  value parameters, so every theorem quantifies over their behaviour.
-/

/- Generic outcome of a Go computation returning (value, error) where the
computation may also panic at runtime. -/
inductive Res (α : Type) where
  | ok (a : α)
  | err (msg : List Char)
  | panicked
deriving DecidableEq, Repr

/- ASCII model of Go `unicode` whitespace as used by the regexp class
`\s`, which in RE2 is exactly the set [\t\n\f\r ]. -/
def isWS (c : Char) : Bool :=
  c == '\t' || c == '\n' || c == '\x0c' || c == '\r' || c == ' '

/- ASCII model of the whitespace accepted by Go `strings.TrimSpace`
(`unicode.IsSpace`): space, tab, newline, vertical tab, form feed,
carriage return. -/
def isSpaceGo (c : Char) : Bool :=
  c == ' ' || c == '\t' || c == '\n' || c == '\x0b' || c == '\x0c' || c == '\r'

/- ASCII fragment of the per-character lowering performed by Go
`strings.ToLower`. -/
def asciiLower (c : Char) : Char :=
  if 'A' ≤ c ∧ c ≤ 'Z' then Char.ofNat (c.toNat + 32) else c

/- Model of Go `strings.ToLower` on ASCII text. -/
def goToLower (l : List Char) : List Char := l.map asciiLower

/- Model of Go `strings.TrimSpace`. -/
def trimSpace (l : List Char) : List Char :=
  ((l.dropWhile isSpaceGo).reverse.dropWhile isSpaceGo).reverse

/- Digit-run parser underlying the model of Go `strconv.Atoi`. -/
def parseDigitsAux (acc : Nat) : List Char → Option Nat
  | [] => some acc
  | c :: cs =>
    if c.isDigit then parseDigitsAux (acc * 10 + (c.toNat - '0'.toNat)) cs
    else none

/- Parse a non-empty all-digit string. -/
def parseDigits : List Char → Option Nat
  | [] => none
  | l => parseDigitsAux 0 l

def int64MaxI : Int := 9223372036854775807
def int64MinI : Int := -9223372036854775808

/- Model of Go `strconv.Atoi`: optional sign, then a non-empty digit run;
out-of-int64-range values are rejected (ErrRange), matching Atoi on a
64-bit platform. -/
def atoi : List Char → Option Int
  | [] => none
  | c :: rest =>
    if c = '+' then
      (parseDigits rest).bind fun n =>
        if (n : Int) ≤ int64MaxI then some (n : Int) else none
    else if c = '-' then
      (parseDigits rest).bind fun n =>
        if int64MinI ≤ -(n : Int) then some (-(n : Int)) else none
    else
      (parseDigits (c :: rest)).bind fun n =>
        if (n : Int) ≤ int64MaxI then some (n : Int) else none

/- getRetainedPeriods (cloudwatch_query.go): the retention-tiered
candidate period lists, selected by the age of the query start.
`timeSinceSec` models `time.Since(startTime)` in seconds; the Go code
compares against 455, 63 and 15 days. -/
def getRetainedPeriods (timeSinceSec : Int) : List Int :=
  if 455 * 86400 < timeSinceSec then [21600, 86400]
  else if 63 * 86400 < timeSinceSec then [3600, 21600, 86400]
  else if 15 * 86400 < timeSinceSec then [300, 900, 3600, 21600, 86400]
  else [60, 300, 900, 3600, 21600, 86400]

/- The selection loop of getPeriod: starting from the default (the last
candidate), take the first candidate that is at least `datapoints`. -/
def firstAtLeast (datapoints dflt : Int) : List Int → Int
  | [] => dflt
  | p :: ps => if datapoints ≤ p then p else firstAtLeast datapoints dflt ps

/- getPeriod (cloudwatch_query.go).  `periodSpec` is the query's period
string; `startSec`/`endSec`/`nowSec` model startTime, endTime and
time.Now() in seconds.  `parseDuration` models the stdlib
`time.ParseDuration` fallback composed with `int(d.Seconds())` (`none`
models a parse error, in which case getPeriod errors).  The Go
expression `int(math.Ceil(deltaInSeconds / 2000))` is `⌈delta/2000⌉`,
written here as `(delta + 1999).ediv 2000` (exact for the integer-second
time model). -/
def getPeriod (periodSpec : List Char) (startSec endSec nowSec : Int)
    (parseDuration : List Char → Option Int) : Option Int :=
  if goToLower periodSpec = "auto".data ∨ periodSpec = [] then
    let deltaInSeconds := endSec - startSec
    let periods := getRetainedPeriods (nowSec - startSec)
    let datapoints := Int.ediv (deltaInSeconds + 1999) 2000
    some (firstAtLeast datapoints (periods.getLastD 0) periods)
  else
    match atoi periodSpec with
    | some n => some n
    | none => parseDuration periodSpec

/- ------------------------------------------------------------------ -/
/- Lemmas about the period-selection loop and the candidate lists.     -/

theorem firstAtLeast_mem (d dflt : Int) :
    ∀ l : List Int, firstAtLeast d dflt l = dflt ∨ firstAtLeast d dflt l ∈ l := by
  intro l
  induction l with
  | nil => left; rfl
  | cons p ps ih =>
    by_cases h : d ≤ p
    · right; simp [firstAtLeast, h]
    · rcases ih with h' | h'
      · left; simpa [firstAtLeast, h] using h'
      · right; simp [firstAtLeast, h]; right; exact h'

theorem firstAtLeast_qualifies (d dflt : Int) :
    ∀ l : List Int, l.Sorted (· ≤ ·) →
      ∀ v ∈ l, d ≤ v → d ≤ firstAtLeast d dflt l ∧ firstAtLeast d dflt l ≤ v := by
  intro l
  induction l with
  | nil => intro _ v hv; exact absurd hv (List.not_mem_nil v)
  | cons p ps ih =>
    intro hs v hv hdv
    rw [List.sorted_cons] at hs
    by_cases h : d ≤ p
    · rcases List.mem_cons.mp hv with rfl | hv'
      · simp only [firstAtLeast, if_pos h]; exact ⟨h, le_refl v⟩
      · simp only [firstAtLeast, if_pos h]; exact ⟨h, hs.1 v hv'⟩
    · rcases List.mem_cons.mp hv with rfl | hv'
      · exact absurd hdv h
      · simpa [firstAtLeast, h] using ih hs.2 v hv' hdv

theorem firstAtLeast_dflt (d dflt : Int) :
    ∀ l : List Int, (∀ v ∈ l, v < d) → firstAtLeast d dflt l = dflt := by
  intro l
  induction l with
  | nil => intro _; rfl
  | cons p ps ih =>
    intro h
    have hp : p < d := h p (List.mem_cons_self p ps)
    have : ¬ d ≤ p := not_le.mpr hp
    simp only [firstAtLeast, if_neg this]
    exact ih fun v hv => h v (List.mem_cons_of_mem p hv)

theorem getRetainedPeriods_sorted (ts : Int) :
    (getRetainedPeriods ts).Sorted (· ≤ ·) := by
  unfold getRetainedPeriods
  split
  · decide
  · split
    · decide
    · split
      · decide
      · decide

theorem getRetainedPeriods_last (ts : Int) :
    (getRetainedPeriods ts).getLastD 0 = 86400 := by
  unfold getRetainedPeriods
  split
  · rfl
  · split
    · rfl
    · split
      · rfl
      · rfl

theorem getRetainedPeriods_mem_top (ts : Int) :
    (86400 : Int) ∈ getRetainedPeriods ts := by
  unfold getRetainedPeriods
  split
  · decide
  · split
    · decide
    · split
      · decide
      · decide

/- ------------------------------------------------------------------ -/
/- An integer string is never the "auto"/empty specification.          -/

theorem parseDigitsAux_head_digit (acc : Nat) (c : Char) (cs : List Char) (n : Nat)
    (h : parseDigitsAux acc (c :: cs) = some n) : c.isDigit = true := by
  by_cases hc : c.isDigit
  · exact hc
  · simp [parseDigitsAux, hc] at h

theorem asciiLower_of_isDigit (c : Char) (h : c.isDigit = true) :
    asciiLower c = c := by
  unfold asciiLower
  split
  · rename_i hAZ
    have h9 : c ≤ '9' := by
      simp only [Char.isDigit] at h
      exact (Bool.and_eq_true _ _).mp h |>.2 |> of_decide_eq_true
    exact absurd (le_trans hAZ.1 h9) (by decide)
  · rfl

theorem atoi_not_auto (l : List Char) (n : Int) (h : atoi l = some n) :
    ¬ (goToLower l = "auto".data ∨ l = []) := by
  rintro (hauto | rfl)
  · cases l with
    | nil => simp [atoi] at h
    | cons c cs =>
      have hc : asciiLower c = 'a' := by
        simp only [goToLower, List.map_cons] at hauto
        exact (List.cons.injEq _ _ _ _).mp hauto |>.1
      by_cases hplus : c = '+'
      · rw [hplus] at hc; exact absurd hc (by decide)
      · by_cases hminus : c = '-'
        · rw [hminus] at hc; exact absurd hc (by decide)
        · simp only [atoi, if_neg hplus, if_neg hminus] at h
          cases hpd : parseDigits (c :: cs) with
          | none => rw [hpd] at h; simp at h
          | some m =>
            have hdig : c.isDigit = true := by
              have : parseDigitsAux 0 (c :: cs) = some m := by
                simpa [parseDigits] using hpd
              exact parseDigitsAux_head_digit 0 c cs m this
            have : c = 'a' := by rw [← asciiLower_of_isDigit c hdig]; exact hc
            rw [this] at hdig
            exact absurd hdig (by decide)
  · simp [atoi] at h

/-- C2: for every time range, if the period spec is empty or
case-insensitively "auto", the resolved period is the smallest value of
the retention-tiered candidate list (tier chosen by the age of `start`
relative to now) that is at least `⌈(end-start)/2000⌉` seconds,
defaulting to the largest candidate (86400) when none qualify; and for
every spec that is a valid integer string, the resolved period is
exactly that integer, regardless of the time range. -/
theorem getPeriod_resolution (spec : List Char) (startSec endSec nowSec : Int)
    (parseDuration : List Char → Option Int) :
    ((goToLower spec = "auto".data ∨ spec = []) →
      ∃ r, getPeriod spec startSec endSec nowSec parseDuration = some r ∧
        r ∈ getRetainedPeriods (nowSec - startSec) ∧
        (∀ v ∈ getRetainedPeriods (nowSec - startSec),
          Int.ediv (endSec - startSec + 1999) 2000 ≤ v →
          Int.ediv (endSec - startSec + 1999) 2000 ≤ r ∧ r ≤ v) ∧
        ((∀ v ∈ getRetainedPeriods (nowSec - startSec),
          v < Int.ediv (endSec - startSec + 1999) 2000) → r = 86400)) ∧
    (∀ n : Int, atoi spec = some n →
      getPeriod spec startSec endSec nowSec parseDuration = some n) := by
  constructor
  · intro hauto
    unfold getPeriod
    rw [if_pos hauto]
    refine ⟨_, rfl, ?_, ?_, ?_⟩
    · rcases firstAtLeast_mem (Int.ediv (endSec - startSec + 1999) 2000)
        ((getRetainedPeriods (nowSec - startSec)).getLastD 0)
        (getRetainedPeriods (nowSec - startSec)) with h | h
      · rw [h, getRetainedPeriods_last]; exact getRetainedPeriods_mem_top _
      · exact h
    · exact firstAtLeast_qualifies _ _ _ (getRetainedPeriods_sorted _)
    · intro hnone
      rw [firstAtLeast_dflt _ _ _ hnone, getRetainedPeriods_last]
  · intro n hn
    unfold getPeriod
    rw [if_neg (atoi_not_auto spec n hn), hn]

/-- Witness for C2 at concrete inputs: a 4000-second range starting now
resolves "auto" to 60 (smallest candidate ≥ 2), and the integer spec
"300" resolves to 300. -/
theorem getPeriod_resolution_witness :
    getPeriod "auto".data 0 4000 0 (fun _ => none) = some 60 ∧
    getPeriod "300".data 0 4000 0 (fun _ => none) = some 300 := by
  constructor
  · obtain ⟨r, hr, hmem, hq, -⟩ :=
      (getPeriod_resolution "auto".data 0 4000 0 (fun _ => none)).1
        (Or.inl (by decide))
    have h60 : r ≤ 60 :=
      (hq 60 (by decide) (by decide)).2
    have hcases : r = 60 ∨ r = 300 ∨ r = 900 ∨ r = 3600 ∨ r = 21600 ∨ r = 86400 := by
      simpa [getRetainedPeriods] using hmem
    have : r = 60 := by omega
    rw [hr, this]
  · exact (getPeriod_resolution "300".data 0 4000 0 (fun _ => none)).2 300 (by decide)

/- ------------------------------------------------------------------ -/
/- Dimension normalization (parseDimensions, cloudwatch_query.go).     -/

/- A decoded JSON value as produced by encoding/json into interface{}:
a string, an array, or any other shape (number, bool, null, object).
Only the string/array distinction matters to parseDimensions. -/
inductive JValue where
  | str (s : List Char)
  | arr (elems : List JValue)
  | num
  | boolv
  | nullv
  | obj

def isStrVal : JValue → Bool
  | JValue.str _ => true
  | _ => false

/- A value that is neither a string nor an array (the `else` branch of
the type switch in parseDimensions). -/
def otherShape : JValue → Bool
  | JValue.str _ => false
  | JValue.arr _ => false
  | _ => true

def strOf : JValue → List Char
  | JValue.str s => s
  | _ => []

/- The inner loop of parseDimensions over an array value: each element
goes through the unchecked type assertion `value.(string)`; a
non-string element makes the Go program panic, modelled as `none`. -/
def convElems : List JValue → Option (List (List Char))
  | [] => some []
  | JValue.str s :: rest => (convElems rest).map (s :: ·)
  | _ :: _ => none

/- Byte-wise lexicographic order on strings, as used by Go
`sort.Strings`. -/
def lexLe : List Char → List Char → Bool
  | [], _ => true
  | _ :: _, [] => false
  | a :: as, b :: bs => if a < b then true else if a = b then lexLe as bs else false

def insertSortedKey (p : List Char × List (List Char)) :
    List (List Char × List (List Char)) → List (List Char × List (List Char))
  | [] => [p]
  | q :: rest => if lexLe p.1 q.1 then p :: q :: rest else q :: insertSortedKey p rest

/- sortDimensions (cloudwatch_query.go): rebuild the dimension map with
its keys in ascending string order. -/
def sortDimensions (l : List (List Char × List (List Char))) :
    List (List Char × List (List Char)) :=
  l.foldr insertSortedKey []

/- The entry loop of parseDimensions.  A dimension map is modelled as an
association list (Go map iteration order is irrelevant to the claims
settled here, which use single-entry maps or order-insensitive
conclusions).  Note that an array value with no elements never assigns
`parsedDimensions[k]`, so the key is dropped. -/
def parseDimensionsAux :
    List (List Char × JValue) → Res (List (List Char × List (List Char)))
  | [] => Res.ok []
  | (k, v) :: rest =>
    match v with
    | JValue.str s =>
      match parseDimensionsAux rest with
      | Res.ok l => Res.ok ((k, [s]) :: l)
      | e => e
    | JValue.arr elems =>
      match convElems elems with
      | some [] => parseDimensionsAux rest
      | some vs =>
        match parseDimensionsAux rest with
        | Res.ok l => Res.ok ((k, vs) :: l)
        | e => e
      | none => Res.panicked
    | _ => Res.err "unknown type as dimension value".data

/- parseDimensions (cloudwatch_query.go). -/
def parseDimensions (dims : List (List Char × JValue)) :
    Res (List (List Char × List (List Char))) :=
  match parseDimensionsAux dims with
  | Res.ok l => Res.ok (sortDimensions l)
  | e => e

/- A well-shaped dimension value: a single string, or an array whose
elements are all strings. -/
def goodDimValue : JValue → Bool
  | JValue.str _ => true
  | JValue.arr elems => elems.all isStrVal
  | _ => false

/- The per-entry normalization a well-shaped entry undergoes: a string
is promoted to a one-element list, a non-empty string array is kept,
an empty array drops the key. -/
def promoteDim : List Char × JValue → Option (List Char × List (List Char))
  | (k, JValue.str s) => some (k, [s])
  | (k, JValue.arr elems) =>
    match convElems elems with
    | some [] => none
    | some vs => some (k, vs)
    | none => none
  | _ => none

theorem convElems_all_str (elems : List JValue) (h : elems.all isStrVal = true) :
    convElems elems = some (elems.map strOf) := by
  induction elems with
  | nil => rfl
  | cons e rest ih =>
    rw [List.all_cons, Bool.and_eq_true] at h
    cases e with
    | str s => simp [convElems, strOf, ih h.2]
    | arr es => exact absurd h.1 (by simp [isStrVal])
    | num => exact absurd h.1 (by simp [isStrVal])
    | boolv => exact absurd h.1 (by simp [isStrVal])
    | nullv => exact absurd h.1 (by simp [isStrVal])
    | obj => exact absurd h.1 (by simp [isStrVal])

theorem convElems_not_all_str (elems : List JValue) (h : elems.all isStrVal = false) :
    convElems elems = none := by
  induction elems with
  | nil => simp at h
  | cons e rest ih =>
    rw [List.all_cons, Bool.and_eq_false_iff] at h
    cases e with
    | str s =>
      have : rest.all isStrVal = false := by
        rcases h with h | h
        · exact absurd h (by simp [isStrVal])
        · exact h
      simp [convElems, ih this]
    | arr es => rfl
    | num => rfl
    | boolv => rfl
    | nullv => rfl
    | obj => rfl

theorem parseDimensionsAux_good (dims : List (List Char × JValue))
    (h : ∀ kv ∈ dims, goodDimValue kv.2 = true) :
    parseDimensionsAux dims = Res.ok (dims.filterMap promoteDim) := by
  induction dims with
  | nil => rfl
  | cons kv rest ih =>
    obtain ⟨k, v⟩ := kv
    have hv : goodDimValue v = true := h (k, v) (List.mem_cons_self _ _)
    have hrest := ih fun kv hkv => h kv (List.mem_cons_of_mem _ hkv)
    cases v with
    | str s => simp [parseDimensionsAux, hrest, List.filterMap_cons, promoteDim]
    | arr elems =>
      have hall : elems.all isStrVal = true := by simpa [goodDimValue] using hv
      have hc := convElems_all_str elems hall
      cases helem : elems.map strOf with
      | nil =>
        rw [helem] at hc
        simp [parseDimensionsAux, hc, hrest, List.filterMap_cons, promoteDim]
      | cons x xs =>
        rw [helem] at hc
        simp [parseDimensionsAux, hc, hrest, List.filterMap_cons, promoteDim]
    | num => exact absurd hv (by simp [goodDimValue])
    | boolv => exact absurd hv (by simp [goodDimValue])
    | nullv => exact absurd hv (by simp [goodDimValue])
    | obj => exact absurd hv (by simp [goodDimValue])

theorem parseDimensionsAux_other (pre : List (List Char × JValue))
    (k : List Char) (v : JValue) (post : List (List Char × JValue))
    (hpre : ∀ kv ∈ pre, goodDimValue kv.2 = true) (hv : otherShape v = true) :
    parseDimensionsAux (pre ++ (k, v) :: post) =
      Res.err "unknown type as dimension value".data := by
  induction pre with
  | nil =>
    cases v with
    | str s => exact absurd hv (by simp [otherShape])
    | arr es => exact absurd hv (by simp [otherShape])
    | num => rfl
    | boolv => rfl
    | nullv => rfl
    | obj => rfl
  | cons kv rest ih =>
    obtain ⟨k', v'⟩ := kv
    have hv' : goodDimValue v' = true := hpre (k', v') (List.mem_cons_self _ _)
    have hrest := ih fun kv hkv => hpre kv (List.mem_cons_of_mem _ hkv)
    cases v' with
    | str s => simp [parseDimensionsAux, hrest]
    | arr elems =>
      have hall : elems.all isStrVal = true := by simpa [goodDimValue] using hv'
      have hc := convElems_all_str elems hall
      cases helem : elems.map strOf with
      | nil => rw [helem] at hc; simp [parseDimensionsAux, hc, hrest]
      | cons x xs => rw [helem] at hc; simp [parseDimensionsAux, hc, hrest]
    | num => exact absurd hv' (by simp [goodDimValue])
    | boolv => exact absurd hv' (by simp [goodDimValue])
    | nullv => exact absurd hv' (by simp [goodDimValue])
    | obj => exact absurd hv' (by simp [goodDimValue])

theorem parseDimensionsAux_panic (pre : List (List Char × JValue))
    (k : List Char) (elems : List JValue) (post : List (List Char × JValue))
    (hpre : ∀ kv ∈ pre, goodDimValue kv.2 = true)
    (helems : elems.all isStrVal = false) :
    parseDimensionsAux (pre ++ (k, JValue.arr elems) :: post) = Res.panicked := by
  induction pre with
  | nil => simp [parseDimensionsAux, convElems_not_all_str elems helems]
  | cons kv rest ih =>
    obtain ⟨k', v'⟩ := kv
    have hv' : goodDimValue v' = true := hpre (k', v') (List.mem_cons_self _ _)
    have hrest := ih fun kv hkv => hpre kv (List.mem_cons_of_mem _ hkv)
    cases v' with
    | str s => simp [parseDimensionsAux, hrest]
    | arr elems' =>
      have hall : elems'.all isStrVal = true := by simpa [goodDimValue] using hv'
      have hc := convElems_all_str elems' hall
      cases helem : elems'.map strOf with
      | nil => rw [helem] at hc; simp [parseDimensionsAux, hc, hrest]
      | cons x xs => rw [helem] at hc; simp [parseDimensionsAux, hc, hrest]
    | num => exact absurd hv' (by simp [goodDimValue])
    | boolv => exact absurd hv' (by simp [goodDimValue])
    | nullv => exact absurd hv' (by simp [goodDimValue])
    | obj => exact absurd hv' (by simp [goodDimValue])

/-- C4 counterexample: the claim fails on the code.  (1) An array value
containing a non-string element makes parseDimensions panic (unchecked
type assertion), not return the TypeMismatch error the claim requires.
(2)/(3) The error for a non-string, non-array value is the fixed text
"unknown type as dimension value" for any key, so it does not name the
offending key.  (4) An empty array value silently drops its key instead
of being kept. -/
theorem parseDimensions_claim_false :
    parseDimensions [("k".data, JValue.arr [JValue.nullv])] = Res.panicked ∧
    parseDimensions [("zzz".data, JValue.nullv)] =
      Res.err "unknown type as dimension value".data ∧
    parseDimensions [("qqq".data, JValue.boolv)] =
      Res.err "unknown type as dimension value".data ∧
    parseDimensions [("e".data, JValue.arr [])] = Res.ok [] :=
  ⟨rfl, rfl, rfl, rfl⟩

/-- C4 (amended): for every raw dimension map, a value that is a single
string is promoted to a one-element list and a non-empty list of strings
is kept in order (an empty list drops its key); a value of any other
non-list shape fails normalization with the fixed error text "unknown
type as dimension value", which does not name the offending key; and a
list value containing a non-string element causes a runtime panic
(failed type assertion) rather than that error. -/
theorem parseDimensions_normalization (dims : List (List Char × JValue)) :
    ((∀ kv ∈ dims, goodDimValue kv.2 = true) →
      parseDimensions dims = Res.ok (sortDimensions (dims.filterMap promoteDim))) ∧
    (∀ pre k v post, dims = pre ++ (k, v) :: post →
      (∀ kv ∈ pre, goodDimValue kv.2 = true) → otherShape v = true →
      parseDimensions dims = Res.err "unknown type as dimension value".data) ∧
    (∀ pre k elems post, dims = pre ++ (k, JValue.arr elems) :: post →
      (∀ kv ∈ pre, goodDimValue kv.2 = true) → elems.all isStrVal = false →
      parseDimensions dims = Res.panicked) := by
  refine ⟨?_, ?_, ?_⟩
  · intro h
    unfold parseDimensions
    rw [parseDimensionsAux_good dims h]
  · intro pre k v post hsplit hpre hv
    unfold parseDimensions
    rw [hsplit, parseDimensionsAux_other pre k v post hpre hv]
  · intro pre k elems post hsplit hpre helems
    unfold parseDimensions
    rw [hsplit, parseDimensionsAux_panic pre k elems post hpre helems]

/-- Witness for C4 (amended) at concrete inputs: a two-entry map with a
string value and a string-array value normalizes to the promoted,
key-sorted map; a map with a leading good entry and a number value
errors; a map with a leading good entry and a mixed array panics. -/
theorem parseDimensions_normalization_witness :
    parseDimensions
        [("b".data, JValue.str "x".data),
         ("a".data, JValue.arr [JValue.str "y".data, JValue.str "z".data])] =
      Res.ok [("a".data, ["y".data, "z".data]), ("b".data, ["x".data])] ∧
    parseDimensions
        [("b".data, JValue.str "x".data), ("a".data, JValue.num)] =
      Res.err "unknown type as dimension value".data ∧
    parseDimensions
        [("b".data, JValue.str "x".data),
         ("a".data, JValue.arr [JValue.str "y".data, JValue.num])] =
      Res.panicked := by
  refine ⟨?_, ?_, ?_⟩
  · rw [(parseDimensions_normalization _).1 (by decide)]; rfl
  · exact (parseDimensions_normalization _).2.1
      [("b".data, JValue.str "x".data)] "a".data JValue.num [] rfl (by decide) rfl
  · exact (parseDimensions_normalization _).2.2
      [("b".data, JValue.str "x".data)] "a".data
      [JValue.str "y".data, JValue.num] [] rfl (by decide) rfl

/- ------------------------------------------------------------------ -/
/- CloudWatchQuery and its classification (cloudwatch_query.go).       -/

/- The Go enums are uint32; JSON can decode any number into them, so
they are modelled as Nat with the named constants below. -/
def MetricEditorModeBuilder : Nat := 0
def MetricEditorModeRaw : Nat := 1
def MetricQueryTypeSearch : Nat := 0
def MetricQueryTypeQuery : Nat := 1

inductive GMDApiMode where
  | metricStat
  | inferredSearchExpression
  | mathExpression
  | sqlExpression
deriving DecidableEq, Repr

/- CloudWatchQuery (cloudwatch_query.go), with Go strings as List Char
and times as integer seconds. -/
structure CloudWatchQuery where
  RefId : List Char := []
  Region : List Char := []
  Id : List Char := []
  Namespace : List Char := []
  MetricName : List Char := []
  Statistic : List Char := []
  Expression : List Char := []
  SqlExpression : List Char := []
  ReturnData : Bool := false
  Dimensions : List (List Char × List (List Char)) := []
  Period : Int := 0
  Alias : List Char := []
  Label : List Char := []
  MatchExact : Bool := false
  UsedExpression : List Char := []
  TimezoneUTCOffset : List Char := []
  MetricQueryType : Nat := 0
  MetricEditorMode : Nat := 0
  AccountId : Option (List Char) := none
deriving DecidableEq, Repr

/- IsInferredSearchExpression (cloudwatch_query.go). -/
def IsInferredSearchExpression (q : CloudWatchQuery) : Bool :=
  if ¬ (q.MetricQueryType = MetricQueryTypeSearch ∧
        q.MetricEditorMode = MetricEditorModeBuilder) then false
  else if q.AccountId = some "all".data then true
  else if q.Dimensions = [] then ! q.MatchExact
  else if ! q.MatchExact then true
  else q.Dimensions.any fun kv =>
    decide (1 < kv.2.length) || kv.2.any fun v => v == "*".data

/- GetGMDAPIMode (cloudwatch_query.go).  The Go function also takes a
logger used only for the diagnostic warning on the fallback branch; the
log side effect is outside the model. -/
def GetGMDAPIMode (q : CloudWatchQuery) : GMDApiMode :=
  if q.MetricQueryType = MetricQueryTypeSearch ∧
     q.MetricEditorMode = MetricEditorModeBuilder then
    if IsInferredSearchExpression q then GMDApiMode.inferredSearchExpression
    else GMDApiMode.metricStat
  else if q.MetricQueryType = MetricQueryTypeSearch ∧
          q.MetricEditorMode = MetricEditorModeRaw then
    GMDApiMode.mathExpression
  else if q.MetricQueryType = MetricQueryTypeQuery then
    GMDApiMode.sqlExpression
  else GMDApiMode.metricStat

/-- C1: query classification is a pure function of query-type,
editor-mode, dimensions, match-exact and account id, decided in order:
for Search/Builder the mode is InferredSearchExpression exactly when the
inferred-search predicate holds (account id "all"; or no dimensions and
match-exact false; or dimensions present and match-exact false; or
match-exact true and some dimension has more than one value or contains
"*"), else MetricStat; Search/Raw gives MathExpression; query-type
Query gives SQLExpression; any other combination falls back to
MetricStat. -/
theorem GetGMDAPIMode_classification (q : CloudWatchQuery) :
    (q.MetricQueryType = MetricQueryTypeSearch ∧
     q.MetricEditorMode = MetricEditorModeBuilder →
      ((GetGMDAPIMode q = GMDApiMode.inferredSearchExpression ↔
        (q.AccountId = some "all".data ∨
         (q.Dimensions = [] ∧ q.MatchExact = false) ∨
         (q.Dimensions ≠ [] ∧ q.MatchExact = false) ∨
         (q.MatchExact = true ∧ ∃ kv ∈ q.Dimensions,
            1 < kv.2.length ∨ "*".data ∈ kv.2))) ∧
       (GetGMDAPIMode q = GMDApiMode.inferredSearchExpression ∨
        GetGMDAPIMode q = GMDApiMode.metricStat))) ∧
    (q.MetricQueryType = MetricQueryTypeSearch ∧
     q.MetricEditorMode = MetricEditorModeRaw →
      GetGMDAPIMode q = GMDApiMode.mathExpression) ∧
    (q.MetricQueryType = MetricQueryTypeQuery →
      GetGMDAPIMode q = GMDApiMode.sqlExpression) ∧
    (¬ (q.MetricQueryType = MetricQueryTypeSearch ∧
        (q.MetricEditorMode = MetricEditorModeBuilder ∨
         q.MetricEditorMode = MetricEditorModeRaw)) →
     q.MetricQueryType ≠ MetricQueryTypeQuery →
      GetGMDAPIMode q = GMDApiMode.metricStat) := by
  refine ⟨?_, ?_, ?_, ?_⟩
  · intro hsb
    constructor
    · constructor
      · intro hmode
        unfold GetGMDAPIMode at hmode
        rw [if_pos hsb] at hmode
        have hinf : IsInferredSearchExpression q = true := by
          by_cases h : IsInferredSearchExpression q
          · exact h
          · rw [if_neg (by simpa using h)] at hmode; exact absurd hmode (by simp)
        unfold IsInferredSearchExpression at hinf
        rw [if_neg (by simpa using hsb)] at hinf
        by_cases hacc : q.AccountId = some "all".data
        · exact Or.inl hacc
        · rw [if_neg hacc] at hinf
          by_cases hdim : q.Dimensions = []
          · rw [if_pos hdim] at hinf
            right; left
            exact ⟨hdim, by simpa using hinf⟩
          · rw [if_neg hdim] at hinf
            by_cases hme : q.MatchExact
            · rw [if_neg (by simp [hme])] at hinf
              right; right; right
              refine ⟨hme, ?_⟩
              rw [List.any_eq_true] at hinf
              obtain ⟨kv, hkv, hp⟩ := hinf
              rw [Bool.or_eq_true] at hp
              refine ⟨kv, hkv, ?_⟩
              rcases hp with hp | hp
              · exact Or.inl (of_decide_eq_true hp)
              · right
                rw [List.any_eq_true] at hp
                obtain ⟨v, hv, hveq⟩ := hp
                rwa [show v = "*".data from by simpa using hveq] at hv
            · right; right; left
              exact ⟨hdim, by simpa using hme⟩
      · intro hcond
        unfold GetGMDAPIMode
        rw [if_pos hsb]
        have hinf : IsInferredSearchExpression q = true := by
          unfold IsInferredSearchExpression
          rw [if_neg (by simpa using hsb)]
          rcases hcond with hacc | ⟨hdim, hme⟩ | ⟨hdim, hme⟩ | ⟨hme, kv, hkv, hp⟩
          · rw [if_pos hacc]
          · by_cases hacc : q.AccountId = some "all".data
            · rw [if_pos hacc]
            · rw [if_neg hacc, if_pos hdim, hme]; rfl
          · by_cases hacc : q.AccountId = some "all".data
            · rw [if_pos hacc]
            · rw [if_neg hacc, if_neg hdim, hme]; rfl
          · by_cases hacc : q.AccountId = some "all".data
            · rw [if_pos hacc]
            · rw [if_neg hacc]
              have hdim : q.Dimensions ≠ [] := by
                intro hnil; rw [hnil] at hkv; exact absurd hkv (List.not_mem_nil kv)
              rw [if_neg hdim, if_neg (by simp [hme])]
              rw [List.any_eq_true]
              refine ⟨kv, hkv, ?_⟩
              rw [Bool.or_eq_true]
              rcases hp with hp | hp
              · exact Or.inl (decide_eq_true hp)
              · right
                rw [List.any_eq_true]
                exact ⟨"*".data, hp, by simp⟩
        rw [if_pos hinf]
    · unfold GetGMDAPIMode
      rw [if_pos hsb]
      by_cases h : IsInferredSearchExpression q
      · rw [if_pos h]; exact Or.inl rfl
      · rw [if_neg h]; exact Or.inr rfl
  · intro hsr
    unfold GetGMDAPIMode
    rw [if_neg (by rw [hsr.2]; simp [MetricEditorModeRaw, MetricEditorModeBuilder]),
      if_pos hsr]
  · intro hq
    unfold GetGMDAPIMode
    rw [if_neg (by rw [hq]; simp [MetricQueryTypeQuery, MetricQueryTypeSearch]),
      if_neg (by rw [hq]; simp [MetricQueryTypeQuery, MetricQueryTypeSearch]),
      if_pos hq]
  · intro hns hnq
    unfold GetGMDAPIMode
    rw [if_neg (fun h => hns ⟨h.1, Or.inl h.2⟩),
      if_neg (fun h => hns ⟨h.1, Or.inr h.2⟩), if_neg hnq]

/- Concrete queries used by the C1 witness. -/
def cwInferredEx : CloudWatchQuery :=
  { MetricQueryType := 0, MetricEditorMode := 0, AccountId := some "all".data }

def cwMetricStatEx : CloudWatchQuery :=
  { MetricQueryType := 0, MetricEditorMode := 0, MatchExact := true,
    Dimensions := [("k".data, ["v".data])] }

def cwRawEx : CloudWatchQuery := { MetricQueryType := 0, MetricEditorMode := 1 }

def cwQueryEx : CloudWatchQuery := { MetricQueryType := 1, MetricEditorMode := 0 }

def cwOddEx : CloudWatchQuery := { MetricQueryType := 7, MetricEditorMode := 0 }

/-- Witness for C1 at concrete queries: Search/Builder with account id
"all" classifies as InferredSearchExpression; Search/Builder with
match-exact true and a single single-valued dimension classifies as
MetricStat; Search/Raw as MathExpression; Query as SQLExpression; an
out-of-range combination falls back to MetricStat. -/
theorem GetGMDAPIMode_classification_witness :
    GetGMDAPIMode cwInferredEx = GMDApiMode.inferredSearchExpression ∧
    GetGMDAPIMode cwMetricStatEx = GMDApiMode.metricStat ∧
    GetGMDAPIMode cwRawEx = GMDApiMode.mathExpression ∧
    GetGMDAPIMode cwQueryEx = GMDApiMode.sqlExpression ∧
    GetGMDAPIMode cwOddEx = GMDApiMode.metricStat := by
  refine ⟨?_, ?_, ?_, ?_, ?_⟩
  · exact ((GetGMDAPIMode_classification cwInferredEx).1
      (by exact ⟨rfl, rfl⟩)).1.mpr (Or.inl rfl)
  · have h := (GetGMDAPIMode_classification cwMetricStatEx).1 (by exact ⟨rfl, rfl⟩)
    rcases h.2 with hm | hm
    · exfalso
      have := h.1.mp hm
      revert this; decide
    · exact hm
  · exact (GetGMDAPIMode_classification cwRawEx).2.1 ⟨rfl, rfl⟩
  · exact (GetGMDAPIMode_classification cwQueryEx).2.2.1 rfl
  · exact (GetGMDAPIMode_classification cwOddEx).2.2.2 (by decide) (by decide)

/- ------------------------------------------------------------------ -/
/- The legacy-alias regexp and string replacement (getLabel).          -/

/- Does the text begin with the literal closer of the alias pattern,
i.e. two right braces? -/
def startsRB : List Char → Bool
  | a :: b :: _ => a == '}' && b == '}'
  | _ => false

/- Backtracking model of the trailing `\s*` of the regexp
`{{\s*(.+?)\s*}}` followed by the literal closer: greedily consume
whitespace, preferring the longest run after which the closer matches;
returns the number of whitespace characters consumed. -/
def scanW2 : List Char → Option Nat
  | [] => none
  | c :: rest =>
    if isWS c then
      match scanW2 rest with
      | some k => some (k + 1)
      | none => if startsRB (c :: rest) then some 0 else none
    else if startsRB (c :: rest) then some 0 else none

/- Lazy model of `(.+?)` followed by `\s*}}`: extend the capture one
non-newline character at a time, trying to complete the match after
each extension; returns (capture length, trailing whitespace length). -/
def scanC (seen : Nat) : List Char → Option (Nat × Nat)
  | [] => none
  | c :: rest =>
    if c = '\n' then none
    else
      match scanW2 rest with
      | some w2 => some (seen + 1, w2)
      | none => scanC (seen + 1) rest

/- Backtracking model of the leading `\s*`: greedily consume
whitespace (longest run first), falling back to starting the capture
at the current character; returns (leading ws, capture, trailing ws)
lengths. -/
def scanW1 : List Char → Option (Nat × Nat × Nat)
  | [] => none
  | c :: rest =>
    if isWS c then
      match scanW1 rest with
      | some t => some (t.1 + 1, t.2.1, t.2.2)
      | none => (scanC 0 (c :: rest)).map fun p => (0, p.1, p.2)
    else (scanC 0 (c :: rest)).map fun p => (0, p.1, p.2)

/- Leftmost-first match of `{{\s*(.+?)\s*}}` at the head of the text:
returns (full match, capture group, remaining text). -/
def matchHere (s : List Char) : Option (List Char × List Char × List Char) :=
  match s with
  | a :: b :: rest =>
    if a = '{' ∧ b = '{' then
      (scanW1 rest).map fun t =>
        (a :: b :: rest.take (t.1 + t.2.1 + t.2.2 + 2),
         (rest.drop t.1).take t.2.1,
         rest.drop (t.1 + t.2.1 + t.2.2 + 2))
    else none
  | _ => none

theorem matchHere_rest_length (s f sub r : List Char)
    (h : matchHere s = some (f, sub, r)) : r.length < s.length := by
  cases s with
  | nil => simp [matchHere] at h
  | cons a s' =>
    cases s' with
    | nil => simp [matchHere] at h
    | cons b rest =>
      simp only [matchHere] at h
      by_cases hab : a = '{' ∧ b = '{'
      · rw [if_pos hab] at h
        cases hs : scanW1 rest with
        | none => rw [hs] at h; simp at h
        | some t =>
          rw [hs] at h
          simp only [Option.map_some'] at h
          have htrip := Option.some.inj h
          have hr : rest.drop (t.1 + t.2.1 + t.2.2 + 2) = r :=
            congrArg (fun p => p.2.2) htrip
          rw [← hr]
          simp only [List.length_drop, List.length_cons]
          omega
      · rw [if_neg hab] at h; simp at h

/- Model of `legacyAliasRegexp.FindAllStringSubmatch(alias, -1)`:
successive non-overlapping leftmost matches, each contributing the
full match and the capture group. -/
def findAllAux (s : List Char) : List (List Char × List Char) :=
  match s with
  | [] => []
  | c :: cs =>
    match h : matchHere (c :: cs) with
    | some t => (t.1, t.2.1) :: findAllAux t.2.2
    | none => findAllAux cs
termination_by s.length
decreasing_by
  · exact matchHere_rest_length _ _ _ _ h
  · simp

/- Does `pat` occur at the head of the text? (model of the prefix test
inside `strings.Replace`) -/
def leadsWith : List Char → List Char → Bool
  | [], _ => true
  | _ :: _, [] => false
  | a :: as, b :: bs => a == b && leadsWith as bs

/- Model of Go `strings.ReplaceAll(s, pat, repl)` for non-empty `pat`:
scan left to right, replacing each non-overlapping occurrence and
continuing after the inserted replacement. -/
def replaceAll (pat repl : List Char) : List Char → List Char
  | [] => []
  | c :: cs =>
    if h : pat ≠ [] ∧ leadsWith pat (c :: cs) = true then
      repl ++ replaceAll pat repl ((c :: cs).drop pat.length)
    else c :: replaceAll pat repl cs
termination_by l => l.length
decreasing_by
  · have hp : 0 < pat.length := List.length_pos.mpr h.1
    simp only [List.length_drop, List.length_cons]
    omega
  · simp

/- aliasPatterns (cloudwatch_query.go): the fixed dynamic-label token
table. -/
def aliasPatterns : List (List Char × List Char) :=
  [("metric".data, "$\x7bPROP('MetricName')\x7d".data),
   ("namespace".data, "$\x7bPROP('Namespace')\x7d".data),
   ("period".data, "$\x7bPROP('Period')\x7d".data),
   ("region".data, "$\x7bPROP('Region')\x7d".data),
   ("stat".data, "$\x7bPROP('Stat')\x7d".data),
   ("label".data, "$\x7bLABEL\x7d".data)]

/- The dimension-lookup token `${PROP('Dim.<key>')}` substituted for a
placeholder name outside the fixed table. -/
def dimToken (sub : List Char) : List Char :=
  "$\x7bPROP('Dim.".data ++ sub ++ "')\x7d".data

/- The replacement applied for a capture group: the fixed table entry
when the name is known, else the dimension-lookup token. -/
def replTok (sub : List Char) : List Char :=
  match aliasPatterns.lookup sub with
  | some tok => tok
  | none => dimToken sub

/- ------------------------------------------------------------------ -/
/- The decoded metric data query and the normalization pipeline.       -/

/- metricsDataQuery (cloudwatch_query.go): the loosely-typed decoded
JSON query.  Pointer fields are Options; the legacy `statistics` field
is a slice of string pointers, hence `Option (List (Option ...))`
(`none` = field absent, inner `none` = JSON null element). -/
structure metricsDataQuery where
  Dimensions : List (List Char × JValue) := []
  Expression : List Char := []
  Label : Option (List Char) := none
  Id : List Char := []
  MatchExact : Option Bool := none
  MetricEditorMode : Option Nat := none
  MetricName : List Char := []
  MetricQueryType : Nat := 0
  Namespace : List Char := []
  Period : List Char := []
  Region : List Char := []
  SqlExpression : List Char := []
  Statistic : Option (List Char) := none
  Statistics : Option (List (Option (List Char))) := none
  TimezoneUTCOffset : List Char := []
  QueryType : List Char := []
  Hide : Option Bool := none
  Alias : List Char := []
  AccountId : Option (List Char) := none

/- getLabel (cloudwatch_query.go): explicit label verbatim; empty alias
gives empty; with dynamic labels enabled, fold the found matches over
ReplaceAll; otherwise empty. -/
def getLabel (query : metricsDataQuery) (dynamicLabelsEnabled : Bool) : List Char :=
  match query.Label with
  | some l => l
  | none =>
    if query.Alias = [] then []
    else if dynamicLabelsEnabled then
      (findAllAux query.Alias).foldl
        (fun acc m => replaceAll m.1 (replTok m.2) acc) query.Alias
    else []

/- getStatistic (cloudwatch_query.go): migrate the legacy plural
`statistics` field.  When `statistic` is absent the Go code evaluates
`*query.Statistics[0]`: indexing a nil or empty slice panics, as does
dereferencing a nil first element. -/
def getStatistic (query : metricsDataQuery) : Res (List Char) :=
  match query.Statistic with
  | some s => Res.ok s
  | none =>
    match query.Statistics with
    | none => Res.panicked
    | some [] => Res.panicked
    | some (none :: _) => Res.panicked
    | some (some s :: _) => Res.ok s

/- validMetricDataID (cloudwatch_query.go): the anchored regexp
`^[a-z][a-zA-Z0-9_]*$`. -/
def validMetricDataID (l : List Char) : Bool :=
  match l with
  | [] => false
  | c :: cs =>
    (decide ('a' ≤ c) && decide (c ≤ 'z')) &&
      cs.all fun d =>
        (decide ('a' ≤ d) && decide (d ≤ 'z')) ||
        (decide ('A' ≤ d) && decide (d ≤ 'Z')) ||
        (decide ('0' ≤ d) && decide (d ≤ '9')) || d == '_'

/- The package-level constants of cloudwatch_query.go. -/
def timeSeriesQueryMarker : List Char := "timeSeriesQuery".data
def defaultRegionConst : List Char := "default".data

/- validateAndSetDefaults (cloudwatch_query.go).  `newUUID` models the
value returned by `uuid.NewString()`; the Go code strips its hyphens
with `strings.ReplaceAll(newUUID, "-", "")`. -/
def validateAndSetDefaults (q0 : CloudWatchQuery) (refId : List Char)
    (mdq : metricsDataQuery) (startSec endSec nowSec : Int)
    (defaultRegionValue : List Char) (crossAccountQueryingEnabled : Bool)
    (newUUID : List Char) (parseDuration : List Char → Option Int) :
    Res CloudWatchQuery :=
  if mdq.Statistic = none ∧ mdq.Statistics = none then
    Res.err "query must have either statistic or statistics field".data
  else
    match getPeriod mdq.Period startSec endSec nowSec parseDuration with
    | none => Res.err "failed to parse period as duration".data
    | some period =>
      match parseDimensions mdq.Dimensions with
      | Res.err msg => Res.err ("failed to parse dimensions: ".data ++ msg)
      | Res.panicked => Res.panicked
      | Res.ok dims =>
        let q1 := { q0 with Period := period, Dimensions := dims }
        let q2 := if crossAccountQueryingEnabled then
            { q1 with AccountId := mdq.AccountId } else q1
        let q3 :=
          if mdq.Id = [] then
            let suffix := if validMetricDataID refId then refId
              else replaceAll "-".data [] newUUID
            { q2 with Id := "query".data ++ suffix }
          else q2
        let q4 := { q3 with MatchExact := mdq.MatchExact.getD true }
        let rd1 := match mdq.Hide with
          | some h => ! h
          | none => true
        let rd2 := if mdq.QueryType = [] then true else rd1
        let q5 := { q4 with ReturnData := rd2 }
        let q6 := { q5 with MetricEditorMode :=
          if mdq.MetricEditorMode = none ∧ 0 < mdq.Expression.length then
            MetricEditorModeRaw
          else
            match mdq.MetricEditorMode with
            | some m => m
            | none => MetricEditorModeBuilder }
        let q7 := if q6.Region = defaultRegionConst then
            { q6 with Region := defaultRegionValue } else q6
        Res.ok q7

/- ParseMetricDataQueries (cloudwatch_query.go), modelled from the
decoded query onward (`json.Unmarshal` is the stdlib collaborator; its
output is the `mdq0` argument).  Errors are returned to the caller; the
Go wrapper `QueryError{Err, RefID}` only prefixes the reference id to
the message and is not reproduced.  Legacy migration (statistic and
label) runs after validation; the statistic migration can panic. -/
def ParseMetricDataQueries (refId : List Char) (mdq0 : metricsDataQuery)
    (startSec endSec nowSec : Int) (defaultRegion : List Char)
    (dynamicLabelsEnabled crossAccountQueryingEnabled : Bool)
    (newUUID : List Char) (parseDuration : List Char → Option Int) :
    Res CloudWatchQuery :=
  let mdq := if mdq0.Region = [] then { mdq0 with Region := defaultRegion } else mdq0
  if mdq.QueryType = timeSeriesQueryMarker then
    let cwQuery : CloudWatchQuery :=
      { Alias := mdq.Alias, RefId := refId, Id := mdq.Id, Region := mdq.Region,
        Namespace := mdq.Namespace, MetricName := mdq.MetricName,
        MetricQueryType := mdq.MetricQueryType,
        SqlExpression := mdq.SqlExpression,
        TimezoneUTCOffset := mdq.TimezoneUTCOffset,
        Expression := mdq.Expression }
    match validateAndSetDefaults cwQuery refId mdq startSec endSec nowSec
        defaultRegion crossAccountQueryingEnabled newUUID parseDuration with
    | Res.ok q' =>
      match getStatistic mdq with
      | Res.ok s =>
        Res.ok { q' with Statistic := s,
                         Label := getLabel mdq dynamicLabelsEnabled }
      | Res.err m => Res.err m
      | Res.panicked => Res.panicked
    | Res.err m => Res.err m
    | Res.panicked => Res.panicked
  else Res.err "its not a time series query".data

/- ------------------------------------------------------------------ -/
/- Field characterization of a successful validateAndSetDefaults.      -/

theorem validateAndSetDefaults_fields (q0 : CloudWatchQuery) (refId : List Char)
    (mdq : metricsDataQuery) (startSec endSec nowSec : Int) (drv : List Char)
    (cross : Bool) (uuid : List Char) (pd : List Char → Option Int)
    (q' : CloudWatchQuery)
    (h : validateAndSetDefaults q0 refId mdq startSec endSec nowSec drv cross
      uuid pd = Res.ok q') :
    q'.ReturnData = (if mdq.QueryType = [] then true
      else match mdq.Hide with | some b => ! b | none => true) ∧
    q'.Id = (if mdq.Id = [] then
        "query".data ++ (if validMetricDataID refId then refId
          else replaceAll "-".data [] uuid)
      else q0.Id) := by
  unfold validateAndSetDefaults at h
  split at h
  · exact absurd h (by simp)
  · split at h
    · exact absurd h (by simp)
    · split at h
      · exact absurd h (by simp)
      · exact absurd h (by simp)
      · simp only [Res.ok.injEq] at h
        subst h
        constructor
        · simp [apply_ite CloudWatchQuery.ReturnData]
        · simp [apply_ite CloudWatchQuery.Id]

/-- C7: for every normalized query, ReturnData is true unless the hide
flag is explicitly true; and for every input whose query-type marker is
absent (empty), validation forces ReturnData to true unconditionally,
even when hide is explicitly true.  (In the full pipeline the marker is
always "timeSeriesQuery", so there ReturnData is exactly the negation
of an explicit hide.) -/
theorem ReturnData_defaulting (q0 : CloudWatchQuery) (refId : List Char)
    (mdq mdq0 : metricsDataQuery) (startSec endSec nowSec : Int)
    (drv : List Char) (cross dyn : Bool) (uuid : List Char)
    (pd : List Char → Option Int) :
    (∀ q', validateAndSetDefaults q0 refId mdq startSec endSec nowSec drv cross
        uuid pd = Res.ok q' →
      q'.ReturnData = (decide (mdq.QueryType = []) || ! (mdq.Hide == some true))) ∧
    (∀ q'', ParseMetricDataQueries refId mdq0 startSec endSec nowSec drv dyn
        cross uuid pd = Res.ok q'' →
      q''.ReturnData = ! (mdq0.Hide == some true)) := by
  constructor
  · intro q' h
    have hf := (validateAndSetDefaults_fields q0 refId mdq startSec endSec nowSec
      drv cross uuid pd q' h).1
    rw [hf]
    by_cases hq : mdq.QueryType = []
    · simp [hq]
    · cases hh : mdq.Hide with
      | none => simp [hq, hh]
      | some b => cases b <;> simp [hq, hh]
  · intro q'' h
    unfold ParseMetricDataQueries at h
    by_cases hr : mdq0.Region = []
    · simp only [hr, if_pos] at h
      split at h
      · rename_i hqt
        split at h
        · rename_i q1 hv
          split at h
          · rename_i s hs
            simp only [Res.ok.injEq] at h
            subst h
            have hf := (validateAndSetDefaults_fields _ _ _ _ _ _ _ _ _ _ _ hv).1
            have hqt' : ({ mdq0 with Region := drv } : metricsDataQuery).QueryType ≠ [] := by
              rw [hqt]; decide
            simp only [hf]
            rw [if_neg hqt']
            cases hh : mdq0.Hide with
            | none => simp [hh]
            | some b => cases b <;> simp [hh]
          · exact absurd h (by simp)
          · exact absurd h (by simp)
        · exact absurd h (by simp)
        · exact absurd h (by simp)
      · exact absurd h (by simp)
    · simp only [hr, if_neg, if_false] at h
      split at h
      · rename_i hqt
        split at h
        · rename_i q1 hv
          split at h
          · rename_i s hs
            simp only [Res.ok.injEq] at h
            subst h
            have hf := (validateAndSetDefaults_fields _ _ _ _ _ _ _ _ _ _ _ hv).1
            have hqt' : mdq0.QueryType ≠ [] := by rw [hqt]; decide
            simp only [hf]
            rw [if_neg hqt']
            cases hh : mdq0.Hide with
            | none => simp [hh]
            | some b => cases b <;> simp [hh]
          · exact absurd h (by simp)
          · exact absurd h (by simp)
        · exact absurd h (by simp)
        · exact absurd h (by simp)
      · exact absurd h (by simp)

/- Concrete decoded queries for the C7 witness. -/
def mdqNoTypeHidden : metricsDataQuery :=
  { Statistic := some "Sum".data, Period := "300".data, Hide := some true }

def mdqTSHidden : metricsDataQuery :=
  { QueryType := "timeSeriesQuery".data, Statistic := some "Sum".data,
    Period := "300".data, Hide := some true }

/-- Witness for C7 at concrete inputs: with no query-type marker and
hide = true, validation still forces ReturnData = true; in the full
pipeline (marker present) hide = true gives ReturnData = false. -/
theorem ReturnData_defaulting_witness :
    ∃ qa qb : CloudWatchQuery,
      validateAndSetDefaults {} "a".data mdqNoTypeHidden 0 1 2 "us".data true
        [] (fun _ => none) = Res.ok qa ∧ qa.ReturnData = true ∧
      ParseMetricDataQueries "a".data mdqTSHidden 0 1 2 "us".data true true
        [] (fun _ => none) = Res.ok qb ∧ qb.ReturnData = false := by
  refine ⟨_, _, rfl, ?_, rfl, ?_⟩
  · exact ((ReturnData_defaulting {} "a".data mdqNoTypeHidden mdqNoTypeHidden
      0 1 2 "us".data true true [] (fun _ => none)).1 _ rfl).trans (by decide)
  · exact ((ReturnData_defaulting {} "a".data mdqTSHidden mdqTSHidden
      0 1 2 "us".data true true [] (fun _ => none)).2 _ rfl).trans (by decide)

/- ------------------------------------------------------------------ -/
/- C3: identifier resolution.                                          -/

theorem replaceAll_dash (l : List Char) :
    replaceAll "-".data [] l = l.filter (fun c => ! (c == '-')) := by
  induction l with
  | nil => simp [replaceAll]
  | cons c cs ih =>
    by_cases hc : c = '-'
    · subst hc
      rw [replaceAll, dif_pos (by refine ⟨by decide, ?_⟩; simp [leadsWith])]
      simpa using ih
    · rw [replaceAll, dif_neg (by
        intro hcontra
        have := hcontra.2
        simp [leadsWith] at this
        exact hc this.symm)]
      simp [hc, ih]

/-- C3: for every normalized query whose explicit id is absent, if the
reference id matches `^[a-z][a-zA-Z0-9_]*$` the resolved identifier is
"query" followed by the reference id; otherwise it is "query" followed
by a non-empty (given a non-degenerate uuid) suffix containing no
hyphens.  An explicit id is kept unchanged. -/
theorem resolved_identifier (refId : List Char) (mdq0 : metricsDataQuery)
    (startSec endSec nowSec : Int) (dr : List Char) (dyn cross : Bool)
    (uuid : List Char) (pd : List Char → Option Int) (q : CloudWatchQuery)
    (h : ParseMetricDataQueries refId mdq0 startSec endSec nowSec dr dyn cross
      uuid pd = Res.ok q) :
    (mdq0.Id = [] →
      (validMetricDataID refId = true → q.Id = "query".data ++ refId) ∧
      (validMetricDataID refId = false →
        ∃ s, q.Id = "query".data ++ s ∧ '-' ∉ s ∧
          ((∃ c ∈ uuid, c ≠ '-') → s ≠ []))) ∧
    (mdq0.Id ≠ [] → q.Id = mdq0.Id) := by
  simp only [ParseMetricDataQueries] at h
  have hid : (if mdq0.Region = [] then ({ mdq0 with Region := dr } : metricsDataQuery)
      else mdq0).Id = mdq0.Id := by split <;> rfl
  generalize hg : (if mdq0.Region = [] then ({ mdq0 with Region := dr } : metricsDataQuery)
      else mdq0) = mdq at h hid
  split at h
  · split at h
    · split at h
      · rename_i xv q' hv yv s hs
        simp only [Res.ok.injEq] at h
        subst h
        have hf := (validateAndSetDefaults_fields _ _ _ _ _ _ _ _ _ _ _ hv).2
        have hqid : ({ q' with Statistic := s, Label := getLabel mdq dyn } :
            CloudWatchQuery).Id = q'.Id := rfl
        constructor
        · intro hid0
          have hidmdq : mdq.Id = [] := hid.trans hid0
          constructor
          · intro hvalid
            rw [hqid, hf, if_pos hidmdq, if_pos hvalid]
          · intro hinvalid
            refine ⟨replaceAll "-".data [] uuid, ?_, ?_, ?_⟩
            · rw [hqid, hf, if_pos hidmdq, if_neg (by simp [hinvalid])]
            · rw [replaceAll_dash]
              intro hmem
              have := List.of_mem_filter hmem
              simp at this
            · rintro ⟨c, hcmem, hcne⟩ hnil
              rw [replaceAll_dash] at hnil
              have := List.filter_eq_nil_iff.mp hnil c hcmem
              simp [hcne] at this
        · intro hid0
          have hidmdq : ¬ (mdq.Id = []) := by rw [hid]; exact hid0
          rw [hqid, hf, if_neg hidmdq]
          exact hid
      · exact absurd h (by simp)
      · exact absurd h (by simp)
    · exact absurd h (by simp)
    · exact absurd h (by simp)
  · exact absurd h (by simp)

/- Concrete decoded queries for the C3 witness. -/
def mdqAutoId : metricsDataQuery :=
  { QueryType := "timeSeriesQuery".data, Statistic := some "Sum".data,
    Period := "300".data }

def mdqExplicitId : metricsDataQuery :=
  { QueryType := "timeSeriesQuery".data, Statistic := some "Sum".data,
    Period := "300".data, Id := "x7".data }

/-- Witness for C3 at concrete inputs: refId "myRef" (matches the
pattern) resolves the identifier to exactly "querymyRef"; refId "A1"
(fails the pattern, uppercase first letter) resolves to "query" plus a
non-empty hyphen-free suffix; an explicit id "x7" is kept. -/
theorem resolved_identifier_witness :
    (∃ qa, ParseMetricDataQueries "myRef".data mdqAutoId 0 1 2 "us".data true
        true "ab-c".data (fun _ => none) = Res.ok qa ∧
      qa.Id = "querymyRef".data) ∧
    (∃ qb s, ParseMetricDataQueries "A1".data mdqAutoId 0 1 2 "us".data true
        true "ab-c".data (fun _ => none) = Res.ok qb ∧
      qb.Id = "query".data ++ s ∧ '-' ∉ s ∧ s ≠ []) ∧
    (∃ qc, ParseMetricDataQueries "A1".data mdqExplicitId 0 1 2 "us".data true
        true "ab-c".data (fun _ => none) = Res.ok qc ∧ qc.Id = "x7".data) := by
  refine ⟨⟨_, rfl, ?_⟩, ?_, ⟨_, rfl, ?_⟩⟩
  · have h := (resolved_identifier "myRef".data mdqAutoId 0 1 2 "us".data true
      true "ab-c".data (fun _ => none) _ rfl).1 rfl |>.1 (by decide)
    rw [h]; rfl
  · obtain ⟨s, hs, hd, hne⟩ := (resolved_identifier "A1".data mdqAutoId 0 1 2
      "us".data true true "ab-c".data (fun _ => none) _ rfl).1 rfl |>.2
      (by decide)
    exact ⟨_, s, rfl, hs, hd, hne (by decide)⟩
  · exact (resolved_identifier "A1".data mdqExplicitId 0 1 2 "us".data true
      true "ab-c".data (fun _ => none) _ rfl).2 (by decide)

/- ------------------------------------------------------------------ -/
/- C5: rejection of non-time-series queries.                           -/

/- Concrete decoded query with an unrecognized query type. -/
def mdqFoo : metricsDataQuery :=
  { QueryType := "foo".data, Statistic := some "Sum".data,
    Period := "300".data }

/-- C5 counterexample: for a query whose queryType is not
"timeSeriesQuery", ParseMetricDataQueries returns a genuine error
("its not a time series query") rather than a non-error "not
applicable" sentinel; the rejection IS surfaced as an error to the
caller. -/
theorem not_timeseries_is_error :
    ParseMetricDataQueries "a".data mdqFoo 0 1 2 "us".data true true []
      (fun _ => none) = Res.err "its not a time series query".data ∧
    ∀ q, ParseMetricDataQueries "a".data mdqFoo 0 1 2 "us".data true true []
      (fun _ => none) ≠ Res.ok q := by
  refine ⟨rfl, ?_⟩
  intro q hq
  rw [show ParseMetricDataQueries "a".data mdqFoo 0 1 2 "us".data true true []
    (fun _ => none) = Res.err "its not a time series query".data from rfl] at hq
  exact absurd hq (by simp)

/-- C5 (amended): for every input query whose queryType is anything
other than "timeSeriesQuery", normalization produces no resolved query
and returns the error "its not a time series query" to the caller (the
rejection IS surfaced as an ordinary error, not as a non-error
sentinel). -/
theorem not_timeseries_rejected (refId : List Char) (mdq0 : metricsDataQuery)
    (startSec endSec nowSec : Int) (dr : List Char) (dyn cross : Bool)
    (uuid : List Char) (pd : List Char → Option Int)
    (h : mdq0.QueryType ≠ timeSeriesQueryMarker) :
    ParseMetricDataQueries refId mdq0 startSec endSec nowSec dr dyn cross uuid
      pd = Res.err "its not a time series query".data := by
  by_cases hr : mdq0.Region = []
  · simp only [ParseMetricDataQueries, if_pos hr]
    split
    · rename_i hq; exact absurd hq h
    · rfl
  · simp only [ParseMetricDataQueries, if_neg hr]
    split
    · rename_i hq; exact absurd hq h
    · rfl

/-- Witness for C5 (amended) at a concrete input with queryType
"bar". -/
theorem not_timeseries_rejected_witness :
    ParseMetricDataQueries "w".data { QueryType := "bar".data } 0 1 2 "us".data
      true true [] (fun _ => none) =
      Res.err "its not a time series query".data :=
  not_timeseries_rejected "w".data { QueryType := "bar".data } 0 1 2 "us".data
    true true [] (fun _ => none) (by decide)

/- ------------------------------------------------------------------ -/
/- C10: the statistic-presence validation does not make getStatistic   -/
/- safe: a present-but-empty statistics list panics.                   -/

/- The failing input: no singular statistic, legacy statistics present
but empty. -/
def mdqEmptyStats : metricsDataQuery :=
  { QueryType := "timeSeriesQuery".data, Statistic := none,
    Statistics := some [], Period := "300".data }

/-- C10 (code bug): the input passes the statistic-presence validation
(`statistics` is present), yet resolving the statistic evaluates
`*query.Statistics[0]` on an empty slice — an index-out-of-range panic,
not a defined statistic value; the whole pipeline panics on it. -/
theorem statistics_empty_panics :
    ¬ (mdqEmptyStats.Statistic = none ∧ mdqEmptyStats.Statistics = none) ∧
    getStatistic mdqEmptyStats = Res.panicked ∧
    ParseMetricDataQueries "a".data mdqEmptyStats 0 1 2 "us".data true true []
      (fun _ => none) = Res.panicked := by
  refine ⟨by simp [mdqEmptyStats], rfl, rfl⟩

/- ------------------------------------------------------------------ -/
/- The CSV framing pipeline (pkg/infinity/csvBackend.go).              -/

/- A column of models.Query (pkg/models, outside src/); only the fields
csvBackend.go reads are modelled. -/
structure InfColumn where
  selector : List Char := []
  text : List Char := []
  ctype : List Char := []
  timeStampFormat : List Char := []

/- query.CSVOptions as read by csvBackend.go. -/
structure CSVOptionsQ where
  comment : List Char := []
  delimiter : List Char := []
  skipLinesWithError : Bool := false
  relaxColumnCount : Bool := false
  columns : List Char := []

/- Modelled from the spec: models.Query (pkg/models is not under src/);
the fields csvBackend.go reads, with the computed-column list kept as
an opaque payload type CC (its contents are only handed to the
ColumnComputer collaborator). -/
structure InfQuery (CC : Type) where
  refID : List Char := []
  qtype : List Char := []
  columns : List InfColumn := []
  csvOptions : CSVOptionsQ := {}
  computedColumns : CC
  filterExpression : List Char := []
  summarizeExpression : List Char := []
  summarizeBy : List Char := []
  format : List Char := []

/- Modelled from the spec: the models.QueryTypeTSV marker ("a declared
query subtype" selecting the tab delimiter). -/
def QueryTypeTSV : List Char := "tsv".data

/- gframer.ColumnSelector as built by csvBackend.go (the Go field
`Type` is rendered `ColType`). -/
structure ColumnSelector where
  Selector : List Char
  Alias : List Char
  ColType : List Char
  TimeFormat : List Char

/- csvFramer.CSVFramerOptions as built by csvBackend.go. -/
structure CSVFramerOptions where
  FrameName : List Char
  Columns : List ColumnSelector
  Comment : List Char
  Delimiter : List Char
  SkipLinesWithError : Bool
  RelaxColumnCount : Bool
  NoHeaders : Bool := false

/- CustomMeta (pkg/infinity): the frame metadata carrying the
originating query and an optional error text (empty = none). -/
structure CustomMeta (CC : Type) where
  Query : InfQuery CC
  Error : List Char := []

/- data.Frame collapsed to what csvBackend.go touches: its field list
(opaque element type F) and its Meta.Custom pointer chain, modelled as
`Option (CustomMeta CC)` (`none` = nil Meta, dereferencing it
panics). -/
structure Frame (F CC : Type) where
  Fields : List F
  Meta : Option (CustomMeta CC)

/- The three values of data.TimeSeriesSchema().Type that matter. -/
inductive TSType where
  | long
  | wide
  | notTS
deriving DecidableEq

/- Modelled from the spec: the pipeline collaborators that live outside
src/ (GetDummyFrame, csvFramer.CsvStringToFrame, the ColumnComputer
GetFrameWithComputedColumns, the RowFilter ApplyFilter, the Summarizer
GetSummaryFrame, data.LongToWide and Frame.TimeSeriesSchema).  Each
fallible stage returns a Go (frame pointer, error) pair, modelled as
`Option Frame × Option error-text`. -/
structure CSVDeps (F CC : Type) where
  getDummyFrame : InfQuery CC → Frame F CC
  csvStringToFrame :
    List Char → CSVFramerOptions → Option (Frame F CC) × Option (List Char)
  getFrameWithComputedColumns :
    Frame F CC → CC → Option (Frame F CC) × Option (List Char)
  applyFilter : Frame F CC → List Char → Option (Frame F CC) × Option (List Char)
  getSummaryFrame :
    Frame F CC → List Char → List Char → Option (Frame F CC) × Option (List Char)
  longToWide : Frame F CC → Option (Frame F CC) × Option (List Char)
  timeSeriesSchemaType : Frame F CC → TSType

/- The result of the Go function: a returned (frame pointer, error)
pair, or a runtime panic (nil dereference). -/
inductive PipeResult (F CC : Type) where
  | ok (frame : Option (Frame F CC)) (err : Option (List Char))
  | panicked

/- csvBackend.go lines 25-41: the CSVFramerOptions, including the
no-header sentinels "-"/"none" and the TSV delimiter override. -/
def csvBackendOptions {CC : Type} (query : InfQuery CC) : CSVFramerOptions :=
  let columns := query.columns.map fun c =>
    { Selector := c.selector, Alias := c.text, ColType := c.ctype,
      TimeFormat := c.timeStampFormat : ColumnSelector }
  let csvOptions : CSVFramerOptions :=
    { FrameName := query.refID, Columns := columns,
      Comment := query.csvOptions.comment,
      Delimiter := query.csvOptions.delimiter,
      SkipLinesWithError := query.csvOptions.skipLinesWithError,
      RelaxColumnCount := query.csvOptions.relaxColumnCount }
  let csvOptions := if query.csvOptions.columns = "-".data ∨
      query.csvOptions.columns = "none".data then
    { csvOptions with NoHeaders := true } else csvOptions
  if query.qtype = QueryTypeTSV then { csvOptions with Delimiter := "\t".data }
  else csvOptions

/- csvBackend.go lines 33-35: an explicit header line is prepended to
the response text. -/
def csvBackendBody {CC : Type} (query : InfQuery CC) (responseString : List Char) :
    List Char :=
  if query.csvOptions.columns ≠ [] ∧ query.csvOptions.columns ≠ "-".data ∧
      query.csvOptions.columns ≠ "none".data then
    query.csvOptions.columns ++ '\n' :: responseString
  else responseString

/- csvBackend.go lines 15 and 43-47: the dummy frame with its Meta set
to the originating query (this happens before the csv error check, so
the error path below never dereferences a nil Meta). -/
def frameWithQueryMeta {F CC : Type} (deps : CSVDeps F CC) (query : InfQuery CC) :
    Frame F CC :=
  { deps.getDummyFrame query with Meta := some { Query := query } }

/- csvBackend.go lines 56-58: append the parsed fields when the parser
returned a frame. -/
def frameAfterCsv {F CC : Type} (deps : CSVDeps F CC) (responseString : List Char)
    (query : InfQuery CC) : Frame F CC :=
  match (deps.csvStringToFrame (csvBackendBody query responseString)
      (csvBackendOptions query)).1 with
  | some nf =>
    { frameWithQueryMeta deps query with
      Fields := (frameWithQueryMeta deps query).Fields ++ nf.Fields }
  | none => frameWithQueryMeta deps query

/- The error-path metadata assignment `frame.Meta.Custom =
&CustomMeta{Query, Error}` (lines 50-53, 62, 68). -/
def setErrMeta {F CC : Type} (f : Frame F CC) (query : InfQuery CC)
    (e : List Char) : Frame F CC :=
  { f with Meta := some { Query := query, Error := e } }

/- GetCSVBackendResponse (csvBackend.go).  Stage errors attach the raw
error text to the frame metadata and return the frame alongside the
error (the filter error is additionally wrapped with "error applying
filter. " in the returned error only).  A nil frame returned by a
stage, or a nil Meta on an error path, is a nil dereference: panicked.
A nil frame flowing past a stage without error is dereferenced by the
next stage: panicked. -/
def GetCSVBackendResponse {F CC : Type} (deps : CSVDeps F CC)
    (responseString : List Char) (query : InfQuery CC) : PipeResult F CC :=
  match (deps.csvStringToFrame (csvBackendBody query responseString)
      (csvBackendOptions query)).2 with
  | some e =>
    PipeResult.ok (some (setErrMeta (frameWithQueryMeta deps query) query e))
      (some e)
  | none =>
    match deps.getFrameWithComputedColumns (frameAfterCsv deps responseString query)
        query.computedColumns with
    | (some f, some e) =>
      match f.Meta with
      | some _ => PipeResult.ok (some (setErrMeta f query e)) (some e)
      | none => PipeResult.panicked
    | (none, some _) => PipeResult.panicked
    | (none, none) => PipeResult.panicked
    | (some f, none) =>
      match deps.applyFilter f query.filterExpression with
      | (some f2, some e) =>
        match f2.Meta with
        | some _ =>
          PipeResult.ok (some (setErrMeta f2 query e))
            (some ("error applying filter. ".data ++ e))
        | none => PipeResult.panicked
      | (none, some _) => PipeResult.panicked
      | (none, none) => PipeResult.panicked
      | (some f2, none) =>
        if trimSpace query.summarizeExpression ≠ [] then
          PipeResult.ok
            (deps.getSummaryFrame f2 query.summarizeExpression query.summarizeBy).1
            (deps.getSummaryFrame f2 query.summarizeExpression query.summarizeBy).2
        else if query.format = "timeseries".data ∧
            deps.timeSeriesSchemaType f2 = TSType.long then
          match (deps.longToWide f2).2 with
          | none => PipeResult.ok (deps.longToWide f2).1 none
          | some _ => PipeResult.ok (some f2) none
        else PipeResult.ok (some f2) none

theorem frameAfterCsv_meta {F CC : Type} (deps : CSVDeps F CC)
    (responseString : List Char) (query : InfQuery CC) :
    (frameAfterCsv deps responseString query).Meta = some { Query := query } := by
  unfold frameAfterCsv
  split <;> rfl

/-- C8: whenever a stage of the framing pipeline (delimited parse,
computed-column evaluation, or row filter) fails, the pipeline returns
a non-nil error together with a frame whose metadata carries the
originating query and the human-readable error text.  The two inner
stages are spec-modelled collaborators, assumed (per their spec
contracts) to return a frame alongside any error, with metadata
preserved. -/
theorem GetCSVBackendResponse_partial_failure {F CC : Type} (deps : CSVDeps F CC)
    (responseString : List Char) (query : InfQuery CC)
    (hCC : ∀ f cc, ∃ f' e', deps.getFrameWithComputedColumns f cc = (some f', e') ∧
      f'.Meta = f.Meta)
    (hFil : ∀ f fe, ∃ f' e', deps.applyFilter f fe = (some f', e') ∧
      f'.Meta = f.Meta) :
    (∀ e, (deps.csvStringToFrame (csvBackendBody query responseString)
        (csvBackendOptions query)).2 = some e →
      ∃ fr, GetCSVBackendResponse deps responseString query =
          PipeResult.ok (some fr) (some e) ∧
        fr.Meta = some { Query := query, Error := e }) ∧
    ((deps.csvStringToFrame (csvBackendBody query responseString)
        (csvBackendOptions query)).2 = none →
      ∀ e, (deps.getFrameWithComputedColumns (frameAfterCsv deps responseString query)
        query.computedColumns).2 = some e →
      ∃ fr, GetCSVBackendResponse deps responseString query =
          PipeResult.ok (some fr) (some e) ∧
        fr.Meta = some { Query := query, Error := e }) ∧
    ((deps.csvStringToFrame (csvBackendBody query responseString)
        (csvBackendOptions query)).2 = none →
      ∀ f, (deps.getFrameWithComputedColumns (frameAfterCsv deps responseString query)
        query.computedColumns) = (some f, none) →
      ∀ e, (deps.applyFilter f query.filterExpression).2 = some e →
      ∃ fr, GetCSVBackendResponse deps responseString query =
          PipeResult.ok (some fr) (some ("error applying filter. ".data ++ e)) ∧
        fr.Meta = some { Query := query, Error := e }) := by
  refine ⟨?_, ?_, ?_⟩
  · intro e he
    unfold GetCSVBackendResponse
    rw [he]
    exact ⟨_, rfl, rfl⟩
  · intro hcsv e he
    unfold GetCSVBackendResponse
    rw [hcsv]
    obtain ⟨f', e', hcc, hmeta⟩ :=
      hCC (frameAfterCsv deps responseString query) query.computedColumns
    rw [hcc] at he ⊢
    simp only at he
    subst he
    dsimp only
    have hm : f'.Meta = some { Query := query } := by
      rw [hmeta, frameAfterCsv_meta]
    rw [hm]
    exact ⟨_, rfl, rfl⟩
  · intro hcsv f hcc e he
    unfold GetCSVBackendResponse
    rw [hcsv, hcc]
    dsimp only
    obtain ⟨f2, e2, hfil, hmeta2⟩ := hFil f query.filterExpression
    rw [hfil] at he ⊢
    simp only at he
    subst he
    dsimp only
    have hfmeta : f.Meta = some { Query := query } := by
      obtain ⟨f'', e'', hcc', hmeta'⟩ :=
        hCC (frameAfterCsv deps responseString query) query.computedColumns
      rw [hcc'] at hcc
      have hf : f'' = f := by
        have := congrArg Prod.fst hcc
        simpa using this
      rw [← hf, hmeta', frameAfterCsv_meta]
    have hm2 : f2.Meta = some { Query := query } := by
      rw [hmeta2, hfmeta]
    rw [hm2]
    exact ⟨_, rfl, rfl⟩

theorem frameAfterCsv_longToWide_congr {F CC : Type} (deps : CSVDeps F CC)
    (ltw : Frame F CC → Option (Frame F CC) × Option (List Char))
    (responseString : List Char) (query : InfQuery CC) :
    frameAfterCsv { deps with longToWide := ltw } responseString query =
      frameAfterCsv deps responseString query := rfl

/-- C9: if the summarize expression is non-blank after trimming, the
Summarizer result is returned and the long-to-wide reshape is never
applied (the result is independent of the reshape collaborator); the
reshape runs only when the summarize expression is blank, the format is
"timeseries" and the frame shape is long; and when the reshape fails,
or the frame is not long-shaped / the format is not "timeseries", the
filtered frame is returned unchanged with no error. -/
theorem GetCSVBackendResponse_summarize_reshape {F CC : Type}
    (deps : CSVDeps F CC) (responseString : List Char) (query : InfQuery CC)
    (f f2 : Frame F CC)
    (hcsv : (deps.csvStringToFrame (csvBackendBody query responseString)
      (csvBackendOptions query)).2 = none)
    (hcc : deps.getFrameWithComputedColumns
      (frameAfterCsv deps responseString query) query.computedColumns =
      (some f, none))
    (hfil : deps.applyFilter f query.filterExpression = (some f2, none)) :
    (trimSpace query.summarizeExpression ≠ [] →
      GetCSVBackendResponse deps responseString query =
        PipeResult.ok
          (deps.getSummaryFrame f2 query.summarizeExpression query.summarizeBy).1
          (deps.getSummaryFrame f2 query.summarizeExpression query.summarizeBy).2 ∧
      ∀ ltw, GetCSVBackendResponse { deps with longToWide := ltw }
          responseString query =
        GetCSVBackendResponse deps responseString query) ∧
    (trimSpace query.summarizeExpression = [] →
      query.format = "timeseries".data →
      deps.timeSeriesSchemaType f2 = TSType.long →
      ((deps.longToWide f2).2 = none →
        GetCSVBackendResponse deps responseString query =
          PipeResult.ok (deps.longToWide f2).1 none) ∧
      (∀ e, (deps.longToWide f2).2 = some e →
        GetCSVBackendResponse deps responseString query =
          PipeResult.ok (some f2) none)) ∧
    (trimSpace query.summarizeExpression = [] →
      ¬ (query.format = "timeseries".data ∧
         deps.timeSeriesSchemaType f2 = TSType.long) →
      GetCSVBackendResponse deps responseString query =
        PipeResult.ok (some f2) none) := by
  refine ⟨?_, ?_, ?_⟩
  · intro hsum
    constructor
    · unfold GetCSVBackendResponse
      rw [hcsv, hcc]
      dsimp only
      rw [hfil]
      dsimp only
      rw [if_pos hsum]
    · intro ltw
      unfold GetCSVBackendResponse
      dsimp only
      rw [frameAfterCsv_longToWide_congr]
      rw [hcsv, hcc]
      dsimp only
      rw [hfil]
      dsimp only
      rw [if_pos hsum, if_pos hsum]
  · intro hblank hfmt hts
    constructor
    · intro hw
      unfold GetCSVBackendResponse
      rw [hcsv, hcc]
      dsimp only
      rw [hfil]
      dsimp only
      rw [if_neg (by simp [hblank]), if_pos ⟨hfmt, hts⟩, hw]
    · intro e hw
      unfold GetCSVBackendResponse
      rw [hcsv, hcc]
      dsimp only
      rw [hfil]
      dsimp only
      rw [if_neg (by simp [hblank]), if_pos ⟨hfmt, hts⟩, hw]
  · intro hblank hnot
    unfold GetCSVBackendResponse
    rw [hcsv, hcc]
    dsimp only
    rw [hfil]
    dsimp only
    rw [if_neg (by simp [hblank]), if_neg hnot]

/- Concrete instantiations for the C8/C9 witnesses: fields are Nat,
computed-column payloads are Nat. -/
def frameEmptyN : Frame Nat Nat := { Fields := [], Meta := none }

def qInfPlain : InfQuery Nat := { computedColumns := 0 }

def depsCsvFail : CSVDeps Nat Nat :=
  { getDummyFrame := fun _ => frameEmptyN,
    csvStringToFrame := fun _ _ => (none, some "parse error".data),
    getFrameWithComputedColumns := fun fr _ => (some fr, none),
    applyFilter := fun fr _ => (some fr, none),
    getSummaryFrame := fun fr _ _ => (some fr, none),
    longToWide := fun fr => (some fr, none),
    timeSeriesSchemaType := fun _ => TSType.notTS }

def depsCCFail : CSVDeps Nat Nat :=
  { depsCsvFail with
    csvStringToFrame := fun _ _ => (none, none),
    getFrameWithComputedColumns := fun fr _ => (some fr, some "cc error".data) }

def depsFilFail : CSVDeps Nat Nat :=
  { depsCsvFail with
    csvStringToFrame := fun _ _ => (none, none),
    applyFilter := fun fr _ => (some fr, some "filter error".data) }

/-- Witness for C8 at concrete pipelines: a parse failure, a
computed-column failure and a filter failure each yield a returned
frame whose metadata carries the query and the raw error text, next to
the non-nil returned error. -/
theorem GetCSVBackendResponse_partial_failure_witness :
    (∃ fr : Frame Nat Nat, GetCSVBackendResponse depsCsvFail "x".data qInfPlain =
        PipeResult.ok (some fr) (some "parse error".data) ∧
      fr.Meta = some { Query := qInfPlain, Error := "parse error".data }) ∧
    (∃ fr : Frame Nat Nat, GetCSVBackendResponse depsCCFail "x".data qInfPlain =
        PipeResult.ok (some fr) (some "cc error".data) ∧
      fr.Meta = some { Query := qInfPlain, Error := "cc error".data }) ∧
    (∃ fr : Frame Nat Nat, GetCSVBackendResponse depsFilFail "x".data qInfPlain =
        PipeResult.ok (some fr)
          (some ("error applying filter. ".data ++ "filter error".data)) ∧
      fr.Meta = some { Query := qInfPlain, Error := "filter error".data }) := by
  refine ⟨?_, ?_, ?_⟩
  · exact (GetCSVBackendResponse_partial_failure depsCsvFail "x".data qInfPlain
      (fun f cc => ⟨f, none, rfl, rfl⟩) (fun f fe => ⟨f, none, rfl, rfl⟩)).1
      "parse error".data rfl
  · exact (GetCSVBackendResponse_partial_failure depsCCFail "x".data qInfPlain
      (fun f cc => ⟨f, some "cc error".data, rfl, rfl⟩)
      (fun f fe => ⟨f, none, rfl, rfl⟩)).2.1 rfl "cc error".data rfl
  · exact (GetCSVBackendResponse_partial_failure depsFilFail "x".data qInfPlain
      (fun f cc => ⟨f, none, rfl, rfl⟩)
      (fun f fe => ⟨f, some "filter error".data, rfl, rfl⟩)).2.2 rfl
      (frameAfterCsv depsFilFail "x".data qInfPlain) rfl "filter error".data rfl

/- Concrete instantiations for the C9 witness: a pipeline whose stages
all succeed, a summary collaborator returning a recognizable frame, and
a reshape collaborator that always fails. -/
def depsSummarize : CSVDeps Nat Nat :=
  { getDummyFrame := fun _ => frameEmptyN,
    csvStringToFrame := fun _ _ => (none, none),
    getFrameWithComputedColumns := fun fr _ => (some fr, none),
    applyFilter := fun fr _ => (some fr, none),
    getSummaryFrame := fun _ _ _ => (some { Fields := [7], Meta := none }, none),
    longToWide := fun _ => (none, some "reshape failed".data),
    timeSeriesSchemaType := fun _ => TSType.long }

def qSumEx : InfQuery Nat :=
  { computedColumns := 0, summarizeExpression := " sum ".data,
    format := "timeseries".data }

def qReshapeEx : InfQuery Nat :=
  { computedColumns := 0, format := "timeseries".data }

def qPlainFmt : InfQuery Nat := { computedColumns := 0 }

/-- Witness for C9 at concrete pipelines: a non-blank summarize
expression returns the Summarizer frame, independent of the reshape
collaborator; with a blank summarize expression a failing reshape is
absorbed and the filtered frame comes back unchanged with no error,
as it also does when the format is not "timeseries". -/
theorem GetCSVBackendResponse_summarize_reshape_witness :
    GetCSVBackendResponse depsSummarize "x".data qSumEx =
      PipeResult.ok (some { Fields := [7], Meta := none }) none ∧
    GetCSVBackendResponse
        { depsSummarize with longToWide := fun fr => (some fr, none) }
        "x".data qSumEx =
      GetCSVBackendResponse depsSummarize "x".data qSumEx ∧
    GetCSVBackendResponse depsSummarize "x".data qReshapeEx =
      PipeResult.ok (some (frameAfterCsv depsSummarize "x".data qReshapeEx))
        none ∧
    GetCSVBackendResponse depsSummarize "x".data qPlainFmt =
      PipeResult.ok (some (frameAfterCsv depsSummarize "x".data qPlainFmt))
        none := by
  refine ⟨?_, ?_, ?_, ?_⟩
  · exact ((GetCSVBackendResponse_summarize_reshape depsSummarize "x".data qSumEx
      (frameAfterCsv depsSummarize "x".data qSumEx)
      (frameAfterCsv depsSummarize "x".data qSumEx) rfl rfl rfl).1
      (by decide)).1
  · exact ((GetCSVBackendResponse_summarize_reshape depsSummarize "x".data qSumEx
      (frameAfterCsv depsSummarize "x".data qSumEx)
      (frameAfterCsv depsSummarize "x".data qSumEx) rfl rfl rfl).1
      (by decide)).2 (fun fr => (some fr, none))
  · exact ((GetCSVBackendResponse_summarize_reshape depsSummarize "x".data
      qReshapeEx (frameAfterCsv depsSummarize "x".data qReshapeEx)
      (frameAfterCsv depsSummarize "x".data qReshapeEx) rfl rfl rfl).2.1
      rfl rfl rfl).2 "reshape failed".data rfl
  · exact (GetCSVBackendResponse_summarize_reshape depsSummarize "x".data
      qPlainFmt (frameAfterCsv depsSummarize "x".data qPlainFmt)
      (frameAfterCsv depsSummarize "x".data qPlainFmt) rfl rfl rfl).2.2
      rfl (by decide)

/- ------------------------------------------------------------------ -/
/- C6: the label migration.  A well-formed alias is text interleaved   -/
/- with placeholders `{{ name }}`; the development below proves that   -/
/- getLabel substitutes every placeholder.                             -/

/- One placeholder occurrence (leading whitespace, name, trailing
whitespace) followed by the literal text up to the next placeholder. -/
structure AliasSeg where
  w1 : List Char
  name : List Char
  w2 : List Char
  t : List Char

/- The placeholder text `{{w1 name w2}}`. -/
def phOf (s : AliasSeg) : List Char :=
  '{' :: '{' :: (s.w1 ++ s.name ++ s.w2 ++ ['}', '}'])

/- The alias assembled from leading text and segments. -/
def assembleAlias (t0 : List Char) (segs : List AliasSeg) : List Char :=
  t0 ++ (segs.map fun s => phOf s ++ s.t).flatten

/- The migrated label: every placeholder replaced by its token. -/
def assembleLabel (t0 : List Char) (segs : List AliasSeg) : List Char :=
  t0 ++ (segs.map fun s => replTok s.name ++ s.t).flatten

def wsOnly (w : List Char) : Prop := ∀ c ∈ w, isWS c = true

/- A placeholder name: non-empty, no whitespace (hence no newline), no
braces. -/
def goodName (n : List Char) : Prop :=
  n ≠ [] ∧ ∀ c ∈ n, isWS c = false ∧ c ≠ '{' ∧ c ≠ '}'

/- Literal text between placeholders: contains no left brace. -/
def goodText (t : List Char) : Prop := '{' ∉ t

def goodSeg (s : AliasSeg) : Prop :=
  wsOnly s.w1 ∧ goodName s.name ∧ wsOnly s.w2 ∧ goodText s.t

theorem isWS_ne_braces (c : Char) (h : isWS c = true) : c ≠ '{' ∧ c ≠ '}' := by
  constructor <;> rintro rfl <;> revert h <;> decide

theorem not_ws_ne_newline (c : Char) (h : isWS c = false) : c ≠ '\n' := by
  intro hc
  rw [hc] at h
  simp [isWS] at h

/- ------------------------------------------------------------------ -/
/- The scanners succeed on a well-formed placeholder.                  -/

theorem scanW2_cons (c : Char) (l : List Char) :
    scanW2 (c :: l) = if isWS c then
      (match scanW2 l with
       | some k => some (k + 1)
       | none => if startsRB (c :: l) then some 0 else none)
    else if startsRB (c :: l) then some 0 else none := rfl

theorem scanC_cons (seen : Nat) (c : Char) (l : List Char) :
    scanC seen (c :: l) = if c = '\n' then none else
      match scanW2 l with
      | some w2 => some (seen + 1, w2)
      | none => scanC (seen + 1) l := rfl

theorem scanW1_cons (c : Char) (l : List Char) :
    scanW1 (c :: l) = if isWS c then
      (match scanW1 l with
       | some t => some (t.1 + 1, t.2.1, t.2.2)
       | none => (scanC 0 (c :: l)).map fun p => (0, p.1, p.2))
    else (scanC 0 (c :: l)).map fun p => (0, p.1, p.2) := rfl

theorem scanW2_ws (w2 : List Char) (hw : wsOnly w2) (rest : List Char) :
    scanW2 (w2 ++ '}' :: '}' :: rest) = some w2.length := by
  induction w2 with
  | nil =>
    rw [List.nil_append, scanW2_cons, if_neg (by decide : ¬ (isWS '}' = true)),
      if_pos (by simp [startsRB] : startsRB ('}' :: '}' :: rest) = true)]
    rfl
  | cons c w2' ih =>
    have hc : isWS c = true := hw c (List.mem_cons_self _ _)
    have ih' := ih fun d hd => hw d (List.mem_cons_of_mem _ hd)
    rw [List.cons_append, scanW2_cons, if_pos hc, ih']
    simp

theorem scanW2_stuck (c : Char) (hcw : isWS c = false) (hcb : c ≠ '}')
    (l : List Char) : scanW2 (c :: l) = none := by
  rw [scanW2_cons, if_neg (by simp [hcw])]
  cases l with
  | nil => rw [if_neg (by simp [startsRB])]
  | cons d l' => rw [if_neg (by simp [startsRB, hcb])]

theorem scanC_name (name : List Char) (hname : goodName name)
    (w2 : List Char) (hw2 : wsOnly w2) (rest : List Char) :
    ∀ seen, scanC seen (name ++ w2 ++ '}' :: '}' :: rest) =
      some (seen + name.length, w2.length) := by
  obtain ⟨hne, hgood⟩ := hname
  induction name with
  | nil => exact absurd rfl hne
  | cons x name' ih =>
    intro seen
    have hx := hgood x (List.mem_cons_self _ _)
    have hxn : ¬ (x = '\n') := not_ws_ne_newline x hx.1
    cases name' with
    | nil =>
      simp only [List.cons_append, List.nil_append]
      rw [scanC_cons, if_neg hxn, scanW2_ws w2 hw2 rest]
      simp
    | cons y name'' =>
      have hy := hgood y (List.mem_cons_of_mem _ (List.mem_cons_self _ _))
      have ih' := ih (by simp)
        (fun d hd => hgood d (List.mem_cons_of_mem _ hd)) (seen + 1)
      simp only [List.cons_append] at ih' ⊢
      rw [scanC_cons, if_neg hxn, scanW2_stuck y hy.1 hy.2.2, ih']
      have harith : seen + 1 + (y :: name'').length =
          seen + (x :: y :: name'').length := by
        simp [List.length_cons]; omega
      simp only [List.length_cons] at harith ⊢
      rw [harith]

theorem scanW1_full (w1 : List Char) (hw1 : wsOnly w1) (name : List Char)
    (hname : goodName name) (w2 : List Char) (hw2 : wsOnly w2)
    (rest : List Char) :
    scanW1 (w1 ++ name ++ w2 ++ '}' :: '}' :: rest) =
      some (w1.length, name.length, w2.length) := by
  induction w1 with
  | nil =>
    obtain ⟨x, name', hx⟩ : ∃ x name', name = x :: name' := by
      cases name with
      | nil => exact absurd rfl hname.1
      | cons x name' => exact ⟨x, name', rfl⟩
    have hxw : isWS x = false := (hname.2 x (by rw [hx]; simp)).1
    have hscan := scanC_name name hname w2 hw2 rest 0
    rw [hx] at hscan ⊢
    simp only [List.nil_append, List.cons_append] at hscan ⊢
    rw [scanW1_cons, if_neg (by simp [hxw]), hscan]
    simp
  | cons c w1' ih =>
    have hc : isWS c = true := hw1 c (List.mem_cons_self _ _)
    have ih' := ih fun d hd => hw1 d (List.mem_cons_of_mem _ hd)
    simp only [List.cons_append] at ih' ⊢
    rw [scanW1_cons, if_pos hc, ih']
    simp

theorem matchHere_cons2 (a b : Char) (l : List Char) :
    matchHere (a :: b :: l) = if a = '{' ∧ b = '{' then
      (scanW1 l).map fun t =>
        (a :: b :: l.take (t.1 + t.2.1 + t.2.2 + 2),
         (l.drop t.1).take t.2.1,
         l.drop (t.1 + t.2.1 + t.2.2 + 2))
    else none := rfl

theorem matchHere_ph (s : AliasSeg) (hs : goodSeg s) (rest : List Char) :
    matchHere (phOf s ++ rest) = some (phOf s, s.name, rest) := by
  obtain ⟨hw1, hname, hw2, ht⟩ := hs
  have hshape : phOf s ++ rest =
      '{' :: '{' :: (s.w1 ++ s.name ++ s.w2 ++ '}' :: '}' :: rest) := by
    simp [phOf]
  have hflat : s.w1 ++ s.name ++ s.w2 ++ '}' :: '}' :: rest =
      (s.w1 ++ s.name ++ s.w2 ++ ['}', '}']) ++ rest := by
    simp
  have hlen : (s.w1 ++ s.name ++ s.w2 ++ ['}', '}']).length =
      s.w1.length + s.name.length + s.w2.length + 2 := by
    simp [List.length_append]
    omega
  rw [hshape, matchHere_cons2, if_pos ⟨rfl, rfl⟩,
    scanW1_full s.w1 hw1 s.name hname s.w2 hw2 rest]
  simp only [Option.map_some']
  congr 1
  refine (Prod.mk.injEq _ _ _ _).mpr ⟨?_, (Prod.mk.injEq _ _ _ _).mpr ⟨?_, ?_⟩⟩
  · rw [hflat, ← hlen, List.take_left]
    simp [phOf]
  · have hdrop : (s.w1 ++ s.name ++ s.w2 ++ '}' :: '}' :: rest).drop s.w1.length =
        s.name ++ s.w2 ++ '}' :: '}' :: rest := by
      have : s.w1 ++ s.name ++ s.w2 ++ '}' :: '}' :: rest =
          s.w1 ++ (s.name ++ s.w2 ++ '}' :: '}' :: rest) := by simp
      rw [this, List.drop_left]
    rw [hdrop]
    have : s.name ++ s.w2 ++ '}' :: '}' :: rest =
        s.name ++ (s.w2 ++ '}' :: '}' :: rest) := by simp
    rw [this, List.take_left]
  · rw [hflat, ← hlen, List.drop_left]

theorem matchHere_not_lb (c : Char) (hc : c ≠ '{') (l : List Char) :
    matchHere (c :: l) = none := by
  cases l with
  | nil => rfl
  | cons b l' => rw [matchHere_cons2, if_neg (fun hand => hc hand.1)]

theorem findAllAux_nil : findAllAux [] = [] := by rw [findAllAux]

theorem findAllAux_cons (c : Char) (cs : List Char) :
    findAllAux (c :: cs) = match matchHere (c :: cs) with
      | some t => (t.1, t.2.1) :: findAllAux t.2.2
      | none => findAllAux cs := by
  rw [findAllAux]
  cases hm : matchHere (c :: cs) with
  | some t => simp [hm]
  | none => simp [hm]

theorem findAllAux_skip (t : List Char) (ht : goodText t) (rest : List Char) :
    findAllAux (t ++ rest) = findAllAux rest := by
  induction t with
  | nil => rw [List.nil_append]
  | cons c t' ih =>
    have hc : c ≠ '{' := by
      intro h
      exact ht (h ▸ List.mem_cons_self c t')
    have ht' : goodText t' := fun h => ht (List.mem_cons_of_mem _ h)
    rw [List.cons_append, findAllAux_cons, matchHere_not_lb c hc]
    exact ih ht'

theorem findAllAux_ph (s : AliasSeg) (hs : goodSeg s) (rest : List Char) :
    findAllAux (phOf s ++ rest) = (phOf s, s.name) :: findAllAux rest := by
  have h1 : phOf s ++ rest =
      '{' :: (('{' :: (s.w1 ++ s.name ++ s.w2 ++ ['}', '}'])) ++ rest) := by
    simp [phOf]
  rw [h1, findAllAux_cons, ← h1, matchHere_ph s hs rest]

theorem findAllAux_decomp :
    ∀ (segs : List AliasSeg) (t0 : List Char), goodText t0 →
      (∀ s ∈ segs, goodSeg s) →
      findAllAux (assembleAlias t0 segs) = segs.map fun s => (phOf s, s.name) := by
  intro segs
  induction segs with
  | nil =>
    intro t0 ht0 _
    rw [show assembleAlias t0 [] = t0 ++ [] from by simp [assembleAlias],
      findAllAux_skip t0 ht0, findAllAux_nil]
    rfl
  | cons s segs' ih =>
    intro t0 ht0 hsegs
    have hseg : goodSeg s := hsegs s (List.mem_cons_self _ _)
    have hrest : ∀ x ∈ segs', goodSeg x := fun x hx =>
      hsegs x (List.mem_cons_of_mem _ hx)
    have hassem : assembleAlias t0 (s :: segs') =
        t0 ++ (phOf s ++ assembleAlias s.t segs') := by
      simp [assembleAlias]
    rw [hassem, findAllAux_skip t0 ht0, findAllAux_ph s hseg,
      ih s.t hseg.2.2.2 hrest]
    rfl

/- ------------------------------------------------------------------ -/
/- ReplaceAll walks over text, tokens and foreign placeholders, and    -/
/- replaces exactly the occurrences of the searched placeholder.       -/

theorem replaceAll_nil (pat repl : List Char) : replaceAll pat repl [] = [] := by
  rw [replaceAll]

theorem replaceAll_cons (pat repl : List Char) (c : Char) (cs : List Char) :
    replaceAll pat repl (c :: cs) =
      if pat ≠ [] ∧ leadsWith pat (c :: cs) = true then
        repl ++ replaceAll pat repl ((c :: cs).drop pat.length)
      else c :: replaceAll pat repl cs := by
  rw [replaceAll]
  split <;> rfl

theorem leadsWith_append_self (l rest : List Char) :
    leadsWith l (l ++ rest) = true := by
  induction l with
  | nil => rfl
  | cons a as ih => simp [leadsWith, ih]

theorem replaceAll_hit (pat repl : List Char) (hne : pat ≠ []) (rest : List Char) :
    replaceAll pat repl (pat ++ rest) = repl ++ replaceAll pat repl rest := by
  cases pat with
  | nil => exact absurd rfl hne
  | cons a as =>
    have hshape : (a :: as) ++ rest = a :: (as ++ rest) := rfl
    rw [hshape, replaceAll_cons,
      if_pos ⟨hne, by rw [← hshape]; exact leadsWith_append_self _ _⟩]
    congr 1
    rw [← hshape, show ((a :: as) ++ rest).drop (a :: as).length = rest from
      List.drop_left _ _]

theorem replaceAll_skip_char (pat repl p' : List Char) (hpat : pat = '{' :: p')
    (c : Char) (hc : c ≠ '{') (rest : List Char) :
    replaceAll pat repl (c :: rest) = c :: replaceAll pat repl rest := by
  rw [replaceAll_cons, if_neg]
  rintro ⟨-, hlw⟩
  rw [hpat] at hlw
  simp only [leadsWith, Bool.and_eq_true, beq_iff_eq] at hlw
  exact hc hlw.1.symm

theorem replaceAll_skip_lb (pat repl p'' : List Char)
    (hpat : pat = '{' :: '{' :: p'') (d : Char) (hd : d ≠ '{')
    (rest : List Char) :
    replaceAll pat repl ('{' :: d :: rest) =
      '{' :: replaceAll pat repl (d :: rest) := by
  rw [replaceAll_cons, if_neg]
  rintro ⟨-, hlw⟩
  rw [hpat] at hlw
  simp only [leadsWith, Bool.and_eq_true, beq_iff_eq] at hlw
  exact hd hlw.2.1.symm

theorem replaceAll_skip_text (pat repl p' : List Char) (hpat : pat = '{' :: p')
    (t : List Char) (ht : goodText t) (rest : List Char) :
    replaceAll pat repl (t ++ rest) = t ++ replaceAll pat repl rest := by
  induction t with
  | nil => simp
  | cons c t' ih =>
    have hc : c ≠ '{' := by
      intro h
      exact ht (h ▸ List.mem_cons_self c t')
    have ht' : goodText t' := fun h => ht (List.mem_cons_of_mem _ h)
    rw [List.cons_append, replaceAll_skip_char pat repl p' hpat c hc, ih ht',
      List.cons_append]

theorem not_leadsWith_inner (inner : List Char) :
    ∀ (inner' : List Char), inner ≠ inner' → '}' ∉ inner → '}' ∉ inner' →
      ∀ rest : List Char,
      leadsWith (inner ++ ['}', '}']) (inner' ++ '}' :: '}' :: rest) = false := by
  induction inner with
  | nil =>
    intro inner' hne hni hni' rest
    cases inner' with
    | nil => exact absurd rfl hne
    | cons b bs =>
      have hb : ('}' == b) = false := by
        have : b ≠ '}' := by
          intro h
          exact hni' (h ▸ List.mem_cons_self b bs)
        simp [Ne.symm this]
      simp [leadsWith, List.cons_append, hb]
  | cons a as ih =>
    intro inner' hne hni hni' rest
    cases inner' with
    | nil =>
      have ha : (a == '}') = false := by
        have : a ≠ '}' := by
          intro h
          exact hni (h ▸ List.mem_cons_self a as)
        simp [this]
      simp [leadsWith, List.cons_append, List.nil_append, ha]
    | cons b bs =>
      by_cases hab : a = b
      · subst hab
        have hne' : as ≠ bs := by
          intro h
          exact hne (by rw [h])
        have hni2 : '}' ∉ as := fun h => hni (List.mem_cons_of_mem _ h)
        have hni2' : '}' ∉ bs := fun h => hni' (List.mem_cons_of_mem _ h)
        simp only [List.cons_append, leadsWith, beq_self_eq_true, Bool.true_and]
        exact ih bs hne' hni2 hni2' rest
      · have hab' : (a == b) = false := by simp [hab]
        simp [leadsWith, List.cons_append, hab']

/- The interior `w1 name w2` of a well-formed placeholder contains no
brace characters. -/
theorem inner_no_braces (s : AliasSeg) (hs : goodSeg s) :
    '{' ∉ s.w1 ++ s.name ++ s.w2 ∧ '}' ∉ s.w1 ++ s.name ++ s.w2 := by
  obtain ⟨hw1, ⟨-, hname⟩, hw2, -⟩ := hs
  constructor <;> intro hmem <;>
    rcases List.mem_append.mp hmem with hmem' | hw2m
  · rcases List.mem_append.mp hmem' with hw1m | hnm
    · exact absurd rfl (isWS_ne_braces _ (hw1 _ hw1m)).1
    · exact absurd rfl (hname _ hnm).2.1
  · exact absurd rfl (isWS_ne_braces _ (hw2 _ hw2m)).1
  · rcases List.mem_append.mp hmem' with hw1m | hnm
    · exact absurd rfl (isWS_ne_braces _ (hw1 _ hw1m)).2
    · exact absurd rfl (hname _ hnm).2.2
  · exact absurd rfl (isWS_ne_braces _ (hw2 _ hw2m)).2

theorem phOf_inner (s : AliasSeg) :
    phOf s = '{' :: '{' :: ((s.w1 ++ s.name ++ s.w2) ++ ['}', '}']) := by
  simp [phOf]

theorem inner_ne_nil (s : AliasSeg) (hs : goodSeg s) :
    s.w1 ++ s.name ++ s.w2 ≠ [] := by
  intro h
  simp only [List.append_eq_nil] at h
  exact hs.2.1.1 h.1.2

theorem replaceAll_skip_ph (s0 s : AliasSeg) (hs0 : goodSeg s0) (hs : goodSeg s)
    (repl : List Char) (hne : phOf s ≠ phOf s0) (rest : List Char) :
    replaceAll (phOf s0) repl (phOf s ++ rest) =
      phOf s ++ replaceAll (phOf s0) repl rest := by
  have hph := phOf_inner s
  have hph0 := phOf_inner s0
  have hinne : s.w1 ++ s.name ++ s.w2 ≠ s0.w1 ++ s0.name ++ s0.w2 := by
    intro h
    exact hne (by rw [hph, hph0, h])
  have hnb := inner_no_braces s hs
  have hnb0 := inner_no_braces s0 hs0
  obtain ⟨d, inner', hdi⟩ :=
    List.exists_cons_of_ne_nil (inner_ne_nil s hs)
  have hd : d ≠ '{' := by
    intro h
    exact hnb.1 (by rw [hdi, h]; exact List.mem_cons_self _ _)
  have hstep0 : phOf s ++ rest =
      '{' :: ('{' :: ((s.w1 ++ s.name ++ s.w2) ++ '}' :: '}' :: rest)) := by
    rw [hph]; simp
  rw [hstep0, replaceAll_cons, if_neg ?hneg]
  case hneg =>
    rintro ⟨-, hlw⟩
    rw [hph0] at hlw
    simp only [leadsWith, beq_self_eq_true, Bool.true_and] at hlw
    rw [not_leadsWith_inner (s0.w1 ++ s0.name ++ s0.w2) (s.w1 ++ s.name ++ s.w2)
      (Ne.symm hinne) hnb0.2 hnb.2 rest] at hlw
    exact Bool.false_ne_true hlw
  rw [show (s.w1 ++ s.name ++ s.w2) ++ '}' :: '}' :: rest =
      d :: (inner' ++ '}' :: '}' :: rest) from by rw [hdi]; rfl]
  rw [replaceAll_skip_lb (phOf s0) repl _ hph0 d hd]
  rw [show d :: (inner' ++ '}' :: '}' :: rest) =
      (s.w1 ++ s.name ++ s.w2) ++ '}' :: '}' :: rest from by rw [hdi]; rfl]
  rw [replaceAll_skip_text (phOf s0) repl _ hph0 (s.w1 ++ s.name ++ s.w2)
    hnb.1 ('}' :: '}' :: rest)]
  rw [replaceAll_skip_char (phOf s0) repl _ hph0 '}' (by decide) ('}' :: rest)]
  rw [replaceAll_skip_char (phOf s0) repl _ hph0 '}' (by decide) rest]
  rw [hph]
  simp

theorem replaceAll_skip_token (pat repl p'' : List Char)
    (hpat : pat = '{' :: '{' :: p'') (body : List Char) (hbody : '{' ∉ body)
    (rest : List Char) :
    replaceAll pat repl (('$' :: '{' :: (body ++ ['}'])) ++ rest) =
      ('$' :: '{' :: (body ++ ['}'])) ++ replaceAll pat repl rest := by
  have hshape : ('$' :: '{' :: (body ++ ['}'])) ++ rest =
      '$' :: ('{' :: (body ++ '}' :: rest)) := by simp
  rw [hshape, replaceAll_skip_char pat repl _ hpat '$' (by decide)]
  cases body with
  | nil =>
    rw [List.nil_append,
      replaceAll_skip_lb pat repl p'' hpat '}' (by decide) rest,
      replaceAll_skip_char pat repl _ hpat '}' (by decide) rest]
    simp
  | cons b body' =>
    have hb : b ≠ '{' := by
      intro h
      exact hbody (h ▸ List.mem_cons_self b body')
    rw [show (b :: body') ++ '}' :: rest = b :: (body' ++ '}' :: rest) from rfl,
      replaceAll_skip_lb pat repl p'' hpat b hb (body' ++ '}' :: rest),
      show b :: (body' ++ '}' :: rest) = (b :: body') ++ '}' :: rest from rfl,
      replaceAll_skip_text pat repl _ hpat (b :: body') hbody ('}' :: rest),
      replaceAll_skip_char pat repl _ hpat '}' (by decide) rest]
    simp

/- Every substituted token has the shape `$ { body }` with no left
brace in the body. -/
theorem replTok_shape (n : List Char) (hn : '{' ∉ n) :
    ∃ body, replTok n = '$' :: '{' :: (body ++ ['}']) ∧ '{' ∉ body := by
  by_cases h1 : n = "metric".data
  · subst h1; exact ⟨"PROP('MetricName')".data, by decide, by decide⟩
  by_cases h2 : n = "namespace".data
  · subst h2; exact ⟨"PROP('Namespace')".data, by decide, by decide⟩
  by_cases h3 : n = "period".data
  · subst h3; exact ⟨"PROP('Period')".data, by decide, by decide⟩
  by_cases h4 : n = "region".data
  · subst h4; exact ⟨"PROP('Region')".data, by decide, by decide⟩
  by_cases h5 : n = "stat".data
  · subst h5; exact ⟨"PROP('Stat')".data, by decide, by decide⟩
  by_cases h6 : n = "label".data
  · subst h6; exact ⟨"LABEL".data, by decide, by decide⟩
  have hlook : replTok n = dimToken n := by
    unfold replTok
    have b1 : (n == "metric".data) = false := beq_eq_false_iff_ne.mpr h1
    have b2 : (n == "namespace".data) = false := beq_eq_false_iff_ne.mpr h2
    have b3 : (n == "period".data) = false := beq_eq_false_iff_ne.mpr h3
    have b4 : (n == "region".data) = false := beq_eq_false_iff_ne.mpr h4
    have b5 : (n == "stat".data) = false := beq_eq_false_iff_ne.mpr h5
    have b6 : (n == "label".data) = false := beq_eq_false_iff_ne.mpr h6
    have : List.lookup n aliasPatterns = none := by
      simp [aliasPatterns, List.lookup, b1, b2, b3, b4, b5, b6]
    rw [this]
  refine ⟨"PROP('Dim.".data ++ n ++ "')".data, ?_, ?_⟩
  · rw [hlook]
    have e1 : ("$\x7bPROP('Dim." : String).data =
        '$' :: '{' :: ("PROP('Dim." : String).data := by decide
    have e2 : ("')\x7d" : String).data = ("')" : String).data ++ ['}'] := by decide
    unfold dimToken
    rw [e1, e2]
    simp
  · intro hmem
    rcases List.mem_append.mp hmem with h' | hB
    · rcases List.mem_append.mp h' with hA | hN
      · exact absurd hA (by decide)
      · exact hn hN
    · exact absurd hB (by decide)

theorem takeWhile_ws_of_shape (w n w2' : List Char) (hw : wsOnly w)
    (hn : ∀ c ∈ n, isWS c = false) (hnne : n ≠ []) :
    (w ++ n ++ w2').takeWhile isWS = w := by
  induction w with
  | nil =>
    obtain ⟨x, n', hx⟩ : ∃ x n', n = x :: n' := by
      cases n with
      | nil => exact absurd rfl hnne
      | cons x n' => exact ⟨x, n', rfl⟩
    have hxw : isWS x = false := hn x (by rw [hx]; exact List.mem_cons_self _ _)
    rw [hx]
    simp [List.takeWhile_cons, hxw]
  | cons c w' ih =>
    have hc : isWS c = true := hw c (List.mem_cons_self _ _)
    have ih' := ih fun d hd => hw d (List.mem_cons_of_mem _ hd)
    simp only [List.cons_append, List.takeWhile_cons, hc, if_true, ih']

theorem takeWhile_name_of_shape (n w2' : List Char)
    (hn : ∀ c ∈ n, isWS c = false) (hw : wsOnly w2') :
    (n ++ w2').takeWhile (fun c => ! isWS c) = n := by
  induction n with
  | nil =>
    cases w2' with
    | nil => rfl
    | cons c w2'' =>
      have hc : isWS c = true := hw c (List.mem_cons_self _ _)
      simp [List.takeWhile_cons, hc]
  | cons x n' ih =>
    have hx : isWS x = false := hn x (List.mem_cons_self _ _)
    have ih' := ih fun d hd => hn d (List.mem_cons_of_mem _ hd)
    simp only [List.cons_append, List.takeWhile_cons, hx, Bool.not_false,
      if_true, ih']

/- Two well-formed placeholders with the same text have the same name. -/
theorem phOf_name_eq (s s' : AliasSeg) (hs : goodSeg s) (hs' : goodSeg s')
    (h : phOf s = phOf s') : s.name = s'.name := by
  rw [phOf_inner, phOf_inner] at h
  simp only [List.cons.injEq, true_and] at h
  have h3 : s.w1 ++ s.name ++ s.w2 = s'.w1 ++ s'.name ++ s'.w2 :=
    (List.append_inj' h rfl).1
  have hnamews : ∀ c ∈ s.name, isWS c = false := fun c hc => (hs.2.1.2 c hc).1
  have hnamews' : ∀ c ∈ s'.name, isWS c = false := fun c hc => (hs'.2.1.2 c hc).1
  have hw1 : s.w1 = s'.w1 := by
    have t1 := takeWhile_ws_of_shape s.w1 s.name s.w2 hs.1 hnamews hs.2.1.1
    have t2 := takeWhile_ws_of_shape s'.w1 s'.name s'.w2 hs'.1 hnamews' hs'.2.1.1
    rw [← t1, ← t2, h3]
  have h4 : s.name ++ s.w2 = s'.name ++ s'.w2 := by
    have hcl : s.w1 ++ (s.name ++ s.w2) = s.w1 ++ (s'.name ++ s'.w2) :=
      calc s.w1 ++ (s.name ++ s.w2) = s.w1 ++ s.name ++ s.w2 := by simp
        _ = s'.w1 ++ s'.name ++ s'.w2 := h3
        _ = s.w1 ++ (s'.name ++ s'.w2) := by rw [← hw1]; simp
    exact List.append_cancel_left hcl
  have t3 := takeWhile_name_of_shape s.name s.w2 hnamews hs.2.2.1
  have t4 := takeWhile_name_of_shape s'.name s'.w2 hnamews' hs'.2.2.1
  rw [← t3, ← t4, h4]

/- A segment as displayed mid-fold: already-replaced placeholders show
their token, the rest still show the placeholder. -/
def renderSeg (done : List (List Char)) (s : AliasSeg) : List Char :=
  (if phOf s ∈ done then replTok s.name else phOf s) ++ s.t

def renderAll (done : List (List Char)) (t0 : List Char)
    (segs : List AliasSeg) : List Char :=
  t0 ++ (segs.map (renderSeg done)).flatten

theorem renderAll_nil_done (t0 : List Char) (segs : List AliasSeg) :
    renderAll [] t0 segs = assembleAlias t0 segs := by
  unfold renderAll assembleAlias
  refine congrArg (t0 ++ ·) (congrArg List.flatten ?_)
  refine List.map_congr_left fun s _ => ?_
  simp [renderSeg]

theorem renderAll_cons (done : List (List Char)) (t0 : List Char)
    (s : AliasSeg) (segs : List AliasSeg) :
    renderAll done t0 (s :: segs) =
      t0 ++ ((if phOf s ∈ done then replTok s.name else phOf s) ++
        renderAll done s.t segs) := by
  simp [renderAll, renderSeg]

theorem phOf_ne_nil (s : AliasSeg) : phOf s ≠ [] := by simp [phOf]

/- One ReplaceAll pass over the partially-rewritten alias replaces
exactly the still-unreplaced placeholders equal to the searched one. -/
theorem replaceAll_mixed (s0 : AliasSeg) (hs0 : goodSeg s0) (repl : List Char) :
    ∀ (segs : List AliasSeg) (t0 : List Char) (done : List (List Char)),
      goodText t0 → (∀ s ∈ segs, goodSeg s) →
      (∀ s ∈ segs, phOf s = phOf s0 → replTok s.name = repl) →
      replaceAll (phOf s0) repl (renderAll done t0 segs) =
        renderAll (phOf s0 :: done) t0 segs := by
  intro segs
  induction segs with
  | nil =>
    intro t0 done ht0 _ _
    simp only [renderAll, List.map_nil, List.flatten_nil]
    rw [replaceAll_skip_text (phOf s0) repl _ (phOf_inner s0) t0 ht0 [],
      replaceAll_nil]
  | cons s segs' ih =>
    intro t0 done ht0 hsegs hcons
    have hseg : goodSeg s := hsegs s (List.mem_cons_self _ _)
    have hsegs' : ∀ x ∈ segs', goodSeg x := fun x hx =>
      hsegs x (List.mem_cons_of_mem _ hx)
    have hcons' : ∀ x ∈ segs', phOf x = phOf s0 → replTok x.name = repl :=
      fun x hx => hcons x (List.mem_cons_of_mem _ hx)
    have hnamelb : '{' ∉ s.name := fun hx => (hseg.2.1.2 _ hx).2.1 rfl
    rw [renderAll_cons, renderAll_cons,
      replaceAll_skip_text (phOf s0) repl _ (phOf_inner s0) t0 ht0 _]
    congr 1
    by_cases hmem : phOf s ∈ done
    · rw [if_pos hmem, if_pos (List.mem_cons_of_mem _ hmem)]
      obtain ⟨body, hbody, hbody2⟩ := replTok_shape s.name hnamelb
      rw [hbody,
        replaceAll_skip_token (phOf s0) repl _ (phOf_inner s0) body hbody2 _]
      congr 1
      exact ih s.t done hseg.2.2.2 hsegs' hcons'
    · by_cases heq : phOf s = phOf s0
      · rw [if_neg hmem,
          if_pos (by rw [heq]; exact List.mem_cons_self _ _), heq,
          replaceAll_hit (phOf s0) repl (phOf_ne_nil s0) _,
          hcons s (List.mem_cons_self _ _) heq]
        congr 1
        exact ih s.t done hseg.2.2.2 hsegs' hcons'
      · rw [if_neg hmem, if_neg (by
          intro hx
          rcases List.mem_cons.mp hx with hx' | hx'
          · exact heq hx'
          · exact hmem hx'),
          replaceAll_skip_ph s0 s hs0 hseg repl heq _]
        congr 1
        exact ih s.t done hseg.2.2.2 hsegs' hcons'

/- Folding the matches over ReplaceAll replaces every placeholder. -/
theorem foldl_replace (allsegs : List AliasSeg)
    (hall : ∀ s ∈ allsegs, goodSeg s) (t0 : List Char) (ht0 : goodText t0) :
    ∀ (queue : List AliasSeg) (done : List (List Char)),
      (∀ s ∈ queue, goodSeg s) →
      List.foldl (fun acc m => replaceAll m.1 (replTok m.2) acc)
        (renderAll done t0 allsegs) (queue.map fun s => (phOf s, s.name)) =
      renderAll ((queue.map phOf).reverse ++ done) t0 allsegs := by
  intro queue
  induction queue with
  | nil => intro done _; simp
  | cons s0 queue' ih =>
    intro done hq
    have hs0 : goodSeg s0 := hq s0 (List.mem_cons_self _ _)
    simp only [List.map_cons, List.foldl_cons]
    rw [replaceAll_mixed s0 hs0 (replTok s0.name) allsegs t0 done ht0 hall
      (fun s hs heq => by rw [phOf_name_eq s s0 (hall s hs) hs0 heq]),
      ih (phOf s0 :: done) (fun x hx => hq x (List.mem_cons_of_mem _ hx))]
    congr 1
    simp

theorem renderAll_all_done (segs : List AliasSeg) (done : List (List Char))
    (h : ∀ s ∈ segs, phOf s ∈ done) (t0 : List Char) :
    renderAll done t0 segs = assembleLabel t0 segs := by
  unfold renderAll assembleLabel
  refine congrArg (t0 ++ ·) (congrArg List.flatten ?_)
  refine List.map_congr_left fun s hs => ?_
  simp [renderSeg, h s hs]

theorem assembleAlias_eq_nil (t0 : List Char) (segs : List AliasSeg)
    (h : assembleAlias t0 segs = []) : t0 = [] ∧ segs = [] := by
  unfold assembleAlias at h
  rw [List.append_eq_nil] at h
  refine ⟨h.1, ?_⟩
  cases segs with
  | nil => rfl
  | cons s segs' =>
    exfalso
    have h2 := h.2
    simp [phOf] at h2

/-- C6: label migration.  An explicit label is returned verbatim; with
no explicit label, an empty alias gives the empty label, disabled
dynamic labels give the empty label, and with dynamic labels enabled
every `{{ name }}` placeholder of the alias is replaced by the fixed
dynamic-field token for metric/namespace/period/region/stat/label and
by the dimension-lookup token `${PROP('Dim.name')}` otherwise, with all
text outside placeholders preserved. -/
theorem getLabel_migration (query : metricsDataQuery) (dyn : Bool) :
    (∀ l, query.Label = some l → getLabel query dyn = l) ∧
    (query.Label = none → query.Alias = [] → getLabel query dyn = []) ∧
    (query.Label = none → dyn = false → getLabel query dyn = []) ∧
    (query.Label = none → dyn = true →
      ∀ t0 segs, query.Alias = assembleAlias t0 segs → goodText t0 →
        (∀ s ∈ segs, goodSeg s) →
        getLabel query dyn = assembleLabel t0 segs) := by
  refine ⟨?_, ?_, ?_, ?_⟩
  · intro l hl; simp [getLabel, hl]
  · intro hl ha; simp [getLabel, hl, ha]
  · intro hl hd; subst hd; simp [getLabel, hl]
  · intro hl hd t0 segs halias ht0 hsegs
    subst hd
    unfold getLabel
    rw [hl]
    dsimp only
    by_cases ha : query.Alias = []
    · rw [if_pos ha]
      obtain ⟨h1, h2⟩ := assembleAlias_eq_nil t0 segs (by rw [← halias, ha])
      rw [h1, h2]
      simp [assembleLabel]
    · rw [if_neg ha, if_pos rfl, halias, findAllAux_decomp segs t0 ht0 hsegs,
        show assembleAlias t0 segs = renderAll [] t0 segs from
          (renderAll_nil_done t0 segs).symm,
        foldl_replace segs hsegs t0 ht0 segs [] hsegs,
        renderAll_all_done segs ((segs.map phOf).reverse ++ []) ?hmem t0]
      case hmem =>
        intro s hs
        simp only [List.append_nil, List.mem_reverse, List.mem_map]
        exact ⟨s, hs, rfl⟩

def mdqLabelEx : metricsDataQuery := { Label := some "L".data }

def mdqEmptyEx : metricsDataQuery := {}

def mdqAliasEx : metricsDataQuery :=
  { Alias := "x\x7b\x7bmetric\x7d\x7d \x7b\x7bD\x7d\x7d".data }

def aliasSegsEx : List AliasSeg :=
  [⟨[], "metric".data, [], " ".data⟩, ⟨[], "D".data, [], []⟩]

theorem getLabel_migration_witness :
    getLabel mdqLabelEx true = "L".data ∧
    getLabel mdqEmptyEx true = [] ∧
    getLabel mdqAliasEx false = [] ∧
    getLabel mdqAliasEx true =
      "x$\x7bPROP('MetricName')\x7d $\x7bPROP('Dim.D')\x7d".data := by
  refine ⟨?_, ?_, ?_, ?_⟩
  · exact (getLabel_migration mdqLabelEx true).1 "L".data rfl
  · exact (getLabel_migration mdqEmptyEx true).2.1 rfl rfl
  · exact (getLabel_migration mdqAliasEx false).2.2.1 rfl rfl
  · exact ((getLabel_migration mdqAliasEx true).2.2.2 rfl rfl
      "x".data aliasSegsEx (by decide)
      (by unfold goodText; decide)
      (by unfold goodSeg goodName wsOnly goodText; decide)).trans (by decide)
